import Mathlib

/-!
# SessionClient (Networking/src/websocket_client_async.h)

A shallow embedding of the `SessionClient` class: its members, its completion
handlers and `sendAsync`, together with the bookkeeping of the Boost.Asio /
Boost.Beast substrate the handlers talk to (which asynchronous operations have
been issued and not yet completed, which handlers have been posted to the
strand, and the trace of library calls and user callbacks made so far).

Every handler is a function on the session state that mirrors the C++ body
statement by statement.  The substrate is the relation `step`: a completion is
delivered only for an operation that is outstanding, and posted handlers run in
the order in which they were posted (the ordering guarantee of a strand).
-/

/-! ## Data model -/

/-- The type `beast::error_code`; the test `if (ec)` holds exactly for a non-zero value. -/
abbrev error_code := Nat

/-- The type `tcp::endpoint`: an address and a port. -/
structure endpointT where
  address : Nat
  port : Nat
deriving DecidableEq, Repr

/-- The type `void *`; the null pointer is `0`. -/
abbrev VoidPtr := Nat

/-- The constant `nullptr`. -/
def nullptr : VoidPtr := 0

/-- The pair `std::pair<void *, size_t>` a serializer returns. -/
abbrev SerializerReturnT := VoidPtr × Nat

/-- The type `std::function<SerializerReturnT()>`: a callable, known by its identity and by
the pair it yields when `sendAsync` invokes it. -/
structure CallbackSendSerializerT where
  ident : Nat
  returns : SerializerReturnT
deriving DecidableEq, Repr

/-- The pair `std::pair<CallbackSendSerializerT, SerializerReturnT>` held by a queue entry. -/
abbrev SerializedAndReturnedT := CallbackSendSerializerT × SerializerReturnT

/-- The struct `SessionClient::Callbacks`: four `std::function` members, each of which is
either empty (`false`) or holds a target (`true`).  `Callbacks()` leaves all four empty. -/
structure Callbacks where
  callbackRead : Bool := false
  callbackAccept : Bool := false
  callbackClose : Bool := false
  callbackError : Bool := false
deriving DecidableEq, Repr

/-- The readable region of a `beast::flat_buffer` (a library type): `begin_` is the start of
the storage, `in_` the start of the readable bytes and `out_` their end. -/
structure flat_buffer where
  begin_ : VoidPtr := 0
  in_ : VoidPtr := 0
  out_ : VoidPtr := 0
deriving DecidableEq, Repr

/-- The call `buffer_.size()`: the number of readable bytes. -/
def flat_buffer.size (b : flat_buffer) : Nat := b.out_ - b.in_

/-- The call `buffer_.data()`: pointer to and length of the readable bytes. -/
def flat_buffer.data (b : flat_buffer) : VoidPtr × Nat := (b.in_, b.size)

/-- The call `buffer_.consume(n)`: removes `n` readable bytes; removing all of them resets
the region to the start of the storage. -/
def flat_buffer.consume (b : flat_buffer) (n : Nat) : flat_buffer :=
  if n ≥ b.size then { b with in_ := b.begin_, out_ := b.begin_ }
  else { b with in_ := b.in_ + n }

/-- What a completed read leaves in the buffer: `n` more readable bytes. -/
def flat_buffer.commit (b : flat_buffer) (n : Nat) : flat_buffer :=
  { b with out_ := b.out_ + n }

/-- The calls a session makes on the library and on the user: asynchronous operations it
issues, stream options it sets, handlers it posts, the serializer and the callbacks. -/
inductive Effect where
  | async_resolve (host : String) (service : String)
  | expires_after (seconds : Nat)
  | async_connect (results : List endpointT)
  | expires_never
  | set_option_timeout_suggested_client
  | set_option_decorator
  | async_handshake (host : String) (target : String)
  | async_read (buffer : flat_buffer)
  | async_write (msgPtr : VoidPtr) (msgSize : Nat)
  | post_on_send (serialized : SerializedAndReturnedT)
  | serializer_call (serializer : CallbackSendSerializerT)
  | callbackRead (endpoint : endpointT) (msgPtr : VoidPtr) (msgSize : Nat)
  | callbackClose (endpoint : endpointT) (ec : error_code)
  | callbackError (endpoint : endpointT) (ec : error_code)
deriving DecidableEq, Repr

/-- The class `SessionClient`.  The first group of fields are its data members; the second
group is the state of the substrate for this session: how many operations of each kind have
been issued and not yet completed, the buffers of the writes in flight, the `on_send`
handlers posted to the strand and not yet run (oldest first), and the trace of effects. -/
structure SessionClient where
  buffer_ : flat_buffer
  serverAddress : String
  serverPort : Nat
  queue_ : List SerializedAndReturnedT
  callbacks : Callbacks
  endpoint : endpointT
  resolving : Nat
  connecting : Nat
  handshaking : Nat
  reading : Nat
  writing : List (VoidPtr × Nat)
  posted : List SerializedAndReturnedT
  trace : List Effect
deriving DecidableEq, Repr

namespace SessionClient

/-- Records one effect at the end of the trace. -/
def emit (s : SessionClient) (e : Effect) : SessionClient :=
  { s with trace := s.trace ++ [e] }

/-- The constructor: an empty buffer and queue, a default endpoint, nothing issued. -/
def new (serverAddress_in : String) (serverPort_in : Nat) (callbacks_in : Callbacks) :
    SessionClient :=
  { buffer_ := {}
    serverAddress := serverAddress_in
    serverPort := serverPort_in
    queue_ := []
    callbacks := callbacks_in
    endpoint := ⟨0, 0⟩
    resolving := 0
    connecting := 0
    handshaking := 0
    reading := 0
    writing := []
    posted := []
    trace := [] }

/-- The call `resolver_.async_resolve(host, service, on_resolve)`. -/
def async_resolve (s : SessionClient) (host service : String) : SessionClient :=
  { s.emit (.async_resolve host service) with resolving := s.resolving + 1 }

/-- The call `async_connect(results, on_connect)` on the lowest layer. -/
def async_connect (s : SessionClient) (results : List endpointT) : SessionClient :=
  { s.emit (.async_connect results) with connecting := s.connecting + 1 }

/-- The call `ws_.async_handshake(host, target, on_handshake)`. -/
def async_handshake (s : SessionClient) (host target : String) : SessionClient :=
  { s.emit (.async_handshake host target) with handshaking := s.handshaking + 1 }

/-- The call `ws_.async_read(buffer_, on_read)`; the effect records the buffer as it is when
the read is issued. -/
def async_read (s : SessionClient) : SessionClient :=
  { s.emit (.async_read s.buffer_) with reading := s.reading + 1 }

/-- The call `ws_.async_write(mutable_buffer(msgPtr, msgSize), on_write)`. -/
def async_write (s : SessionClient) (msgPtr : VoidPtr) (msgSize : Nat) : SessionClient :=
  { s.emit (.async_write msgPtr msgSize) with writing := s.writing ++ [(msgPtr, msgSize)] }

/-- The call `net::post(ws_.get_executor(), on_send(serialized))`. -/
def post_on_send (s : SessionClient) (serialized : SerializedAndReturnedT) : SessionClient :=
  { s.emit (.post_on_send serialized) with posted := s.posted ++ [serialized] }

/-- The method `run()`: starts the chain with a name resolution. -/
def run (s : SessionClient) : SessionClient :=
  s.async_resolve s.serverAddress (toString s.serverPort)

/-- The method `on_error(ec)`: `callbackError` if it is set, then `callbackClose` if it is
set, both with the stored endpoint. -/
def on_error (s : SessionClient) (ec : error_code) : SessionClient :=
  let s := if s.callbacks.callbackError then s.emit (.callbackError s.endpoint ec) else s
  if s.callbacks.callbackClose then s.emit (.callbackClose s.endpoint ec) else s

/-- The method `on_resolve(ec, results)`. -/
def on_resolve (s : SessionClient) (ec : error_code) (results : List endpointT) :
    SessionClient :=
  if ec ≠ 0 then s.on_error ec
  else
    let s := s.emit (.expires_after 30)
    s.async_connect results

/-- The method `on_connect(ec, ep)`: stores `ep` before it looks at `ec`. -/
def on_connect (s : SessionClient) (ec : error_code) (ep : endpointT) : SessionClient :=
  let s := { s with endpoint := ep }
  if ec ≠ 0 then s.on_error ec
  else
    let s := s.emit .expires_never
    let s := s.emit .set_option_timeout_suggested_client
    let s := s.emit .set_option_decorator
    let host_ := s.serverAddress ++ (":" ++ toString ep.port)
    s.async_handshake host_ "/"

/-- The method `on_handshake(ec)`. -/
def on_handshake (s : SessionClient) (ec : error_code) : SessionClient :=
  if ec ≠ 0 then s.on_error ec
  else s.async_read

/-- The method `on_read(ec, bytes_transferred)`. -/
def on_read (s : SessionClient) (ec : error_code) (bytes_transferred : Nat) :
    SessionClient :=
  if ec ≠ 0 then s.on_error ec
  else
    let mutableBuffer := s.buffer_.data
    let s :=
      if s.callbacks.callbackRead then
        s.emit (.callbackRead s.endpoint mutableBuffer.1 bytes_transferred)
      else s
    let s := { s with buffer_ := s.buffer_.consume s.buffer_.size }
    s.async_read

/-- The method `sendAsync(serializer)`: `std::make_shared` never yields a null pointer, so
the second early return is never taken. -/
def sendAsync (s : SessionClient) (serializer : CallbackSendSerializerT) : SessionClient :=
  let s := s.emit (.serializer_call serializer)
  let msgDef := serializer.returns
  if nullptr = msgDef.1 ∨ 0 = msgDef.2 then s
  else
    let packaged : SerializedAndReturnedT := (serializer, msgDef)
    s.post_on_send packaged

/-- The method `on_send(serialized)`.  After the `push_back` the vector holds at least the
new entry, so `queue_.front()` is defined and the empty case never runs. -/
def on_send (s : SessionClient) (serialized : SerializedAndReturnedT) : SessionClient :=
  let s := { s with queue_ := s.queue_ ++ [serialized] }
  if s.queue_.length > 1 then s
  else
    match s.queue_ with
    | [] => s
    | next :: _ =>
      let msgPtr := next.2.1
      let msgSize := next.2.2
      s.async_write msgPtr msgSize

/-- The method `on_write(ec, bytes)`.  `queue_.erase(queue_.begin())` on an empty vector has
no defined behaviour: the result is `none` there. -/
def on_write (s : SessionClient) (ec : error_code) (_bytes : Nat) : Option SessionClient :=
  if ec ≠ 0 then some (s.on_error ec)
  else
    match s.queue_ with
    | [] => none
    | _ :: rest =>
      let s := { s with queue_ := rest }
      match s.queue_ with
      | [] => some s
      | next :: _ =>
        let msgPtr := next.2.1
        let msgSize := next.2.2
        some (s.async_write msgPtr msgSize)

end SessionClient

/-! ## The substrate: events and steps -/

/-- What can happen to a session: the completion of an operation it issued, a call of
`sendAsync` by the application, or the strand running the oldest posted `on_send`. -/
inductive Event where
  | resolveDone (ec : error_code) (results : List endpointT)
  | connectDone (ec : error_code) (ep : endpointT)
  | handshakeDone (ec : error_code)
  | readDone (ec : error_code) (bytes_transferred : Nat)
  | writeDone (ec : error_code) (bytes_transferred : Nat)
  | sendAsync (serializer : CallbackSendSerializerT)
  | runPosted
deriving DecidableEq, Repr

open SessionClient in
/-- One event.  A completion is delivered only when an operation of its kind is outstanding;
it retires that operation and calls the handler bound to it.  A completed read has put its
bytes into `buffer_`.  The result is `none` when the event cannot happen (or when the handler
leaves defined behaviour). -/
def step (s : SessionClient) : Event → Option SessionClient
  | .resolveDone ec results =>
    if s.resolving = 0 then none
    else some (on_resolve { s with resolving := s.resolving - 1 } ec results)
  | .connectDone ec ep =>
    if s.connecting = 0 then none
    else some (on_connect { s with connecting := s.connecting - 1 } ec ep)
  | .handshakeDone ec =>
    if s.handshaking = 0 then none
    else some (on_handshake { s with handshaking := s.handshaking - 1 } ec)
  | .readDone ec bytes_transferred =>
    if s.reading = 0 then none
    else
      some (on_read { s with reading := s.reading - 1,
                             buffer_ := s.buffer_.commit bytes_transferred }
              ec bytes_transferred)
  | .writeDone ec bytes_transferred =>
    match s.writing with
    | [] => none
    | _ :: rest => on_write { s with writing := rest } ec bytes_transferred
  | .sendAsync serializer => some (SessionClient.sendAsync s serializer)
  | .runPosted =>
    match s.posted with
    | [] => none
    | serialized :: rest => some (on_send { s with posted := rest } serialized)

/-- A sequence of events, one after the other. -/
def exec (s : SessionClient) : List Event → Option SessionClient
  | [] => some s
  | ev :: evs => (step s ev).bind (fun s' => exec s' evs)

/-- A client session right after `run()` on a newly constructed object. -/
def started (serverAddress : String) (serverPort : Nat) (callbacks : Callbacks) :
    SessionClient :=
  (SessionClient.new serverAddress serverPort callbacks).run

/-- The states a started client session can be in. -/
def Reachable (s : SessionClient) : Prop :=
  ∃ serverAddress serverPort callbacks evs,
    exec (started serverAddress serverPort callbacks) evs = some s

/-- A fresh session as far as the write path goes: empty `queue_`, no write outstanding. -/
def Fresh (s : SessionClient) : Prop :=
  s.queue_ = [] ∧ s.writing = []

/-! ## Reading the trace -/

/-- The buffers of the `async_write` calls in a trace, in the order of the calls. -/
def writesIssued : List Effect → List (VoidPtr × Nat)
  | [] => []
  | .async_write p n :: es => (p, n) :: writesIssued es
  | _ :: es => writesIssued es

/-- The number of `async_read` calls in a trace. -/
def readsIssued : List Effect → Nat
  | [] => 0
  | .async_read _ :: es => readsIssued es + 1
  | _ :: es => readsIssued es

/-- The number of startup operations (`async_resolve`, `async_connect`, `async_handshake`)
in a trace. -/
def startupIssued : List Effect → Nat
  | [] => 0
  | .async_resolve _ _ :: es => startupIssued es + 1
  | .async_connect _ :: es => startupIssued es + 1
  | .async_handshake _ _ :: es => startupIssued es + 1
  | _ :: es => startupIssued es

/-- The user callbacks invoked in a trace, in order. -/
def callbacksInvoked : List Effect → List Effect
  | [] => []
  | .callbackRead ep p n :: es => .callbackRead ep p n :: callbacksInvoked es
  | .callbackClose ep ec :: es => .callbackClose ep ec :: callbacksInvoked es
  | .callbackError ep ec :: es => .callbackError ep ec :: callbacksInvoked es
  | _ :: es => callbacksInvoked es

/-- The number of `callbackError` invocations in a trace. -/
def errorCallbacks : List Effect → Nat
  | [] => 0
  | .callbackError _ _ :: es => errorCallbacks es + 1
  | _ :: es => errorCallbacks es

/-- The number of `callbackClose` invocations in a trace. -/
def closeCallbacks : List Effect → Nat
  | [] => 0
  | .callbackClose _ _ :: es => closeCallbacks es + 1
  | _ :: es => closeCallbacks es

/-- The number of `callbackRead` invocations in a trace. -/
def readCallbacks : List Effect → Nat
  | [] => 0
  | .callbackRead _ _ _ :: es => readCallbacks es + 1
  | _ :: es => readCallbacks es

/-- The events of the startup and read chain. -/
def Event.isChain : Event → Bool
  | .resolveDone _ _ => true
  | .connectDone _ _ => true
  | .handshakeDone _ => true
  | .readDone _ _ => true
  | _ => false

/-- The error completions of the startup and read chain (resolve, connect, handshake,
read): each of them makes its handler call `on_error`. -/
def Event.isChainError : Event → Bool
  | .resolveDone ec _ => ec != 0
  | .connectDone ec _ => ec != 0
  | .handshakeDone ec => ec != 0
  | .readDone ec _ => ec != 0
  | _ => false

/-- The error completions of the startup chain (resolve, connect, handshake). -/
def Event.isStartupError : Event → Bool
  | .resolveDone ec _ => ec != 0
  | .connectDone ec _ => ec != 0
  | .handshakeDone ec => ec != 0
  | _ => false

/-- The error completions of a write: each of them makes `on_write` call `on_error`. -/
def Event.isWriteError : Event → Bool
  | .writeDone ec _ => ec != 0
  | _ => false

/-- The write completions. -/
def Event.isWriteDone : Event → Bool
  | .writeDone _ _ => true
  | _ => false

/-- The calls of `sendAsync` in a sequence of events, as the entries they post. -/
def sentEntries : List Event → List SerializedAndReturnedT
  | [] => []
  | .sendAsync serializer :: evs => (serializer, serializer.returns) :: sentEntries evs
  | _ :: evs => sentEntries evs

/-- A serializer whose pair has a non-null pointer and a non-zero length. -/
def CallbackSendSerializerT.nonEmpty (serializer : CallbackSendSerializerT) : Prop :=
  serializer.returns.1 ≠ nullptr ∧ serializer.returns.2 ≠ 0

/-- The events in which `N` calls of `sendAsync` with non-empty messages and the posted
`on_send` handlers run while no write completes: no write completion, and every serializer
yields a non-empty message. -/
def Event.isSendPhase : Event → Prop
  | .writeDone _ _ => False
  | .sendAsync serializer => serializer.nonEmpty
  | _ => True

/-! ## Invariants -/

/-- The write path is consistent: no write is outstanding, or exactly one is and it carries
the buffer of the entry at the head of `queue_`. -/
def WInv (s : SessionClient) : Prop :=
  s.writing = [] ∨ ∃ e rest, s.queue_ = e :: rest ∧ s.writing = [e.2]

/-- The number of outstanding operations of the startup and read chain. -/
def chainOps (s : SessionClient) : Nat :=
  s.resolving + s.connecting + s.handshaking + s.reading

/-- The write chain has stopped: entries wait in `queue_` and no write is outstanding. -/
def WriteStopped (s : SessionClient) : Prop :=
  s.writing = [] ∧ s.queue_ ≠ []

/-- Whether the write chain can still issue a write: `0` once it has stopped, else `1`. -/
def writeAlive (s : SessionClient) : Nat :=
  match s.writing, s.queue_ with
  | [], _ :: _ => 0
  | _, _ => 1

/-- The number of write completions in a sequence of events. -/
def writeCompletions : List Event → Nat
  | [] => 0
  | ev :: evs => (if ev.isWriteDone then 1 else 0) + writeCompletions evs

/-- The number of error completions of the startup and read chain in a sequence of events. -/
def chainErrors : List Event → Nat
  | [] => 0
  | ev :: evs => (if ev.isChainError then 1 else 0) + chainErrors evs

/-- The number of error completions of writes in a sequence of events. -/
def writeErrors : List Event → Nat
  | [] => 0
  | ev :: evs => (if ev.isWriteError then 1 else 0) + writeErrors evs

/-- The state of the write path while messages are sent and no write completes: `queue_`
followed by the posted handlers is what has been sent, the head of `queue_` (if any) is being
written, and the writes issued since the start are exactly that one. -/
def SendPhase (W : List (VoidPtr × Nat)) (sent : List SerializedAndReturnedT)
    (s : SessionClient) : Prop :=
  s.queue_ ++ s.posted = sent ∧ s.writing = (s.queue_.take 1).map Prod.snd ∧
    writesIssued s.trace = W ++ s.writing

/-- The callbacks one `on_error(ec)` invokes. -/
def errorEffects (s : SessionClient) (ec : error_code) : List Effect :=
  (if s.callbacks.callbackError then [Effect.callbackError s.endpoint ec] else [])
    ++ (if s.callbacks.callbackClose then [Effect.callbackClose s.endpoint ec] else [])

/-! ## Concrete sessions -/

/-- A host name for the concrete sessions below. -/
def demoHost : String := "example.org"

/-- A callback table with `callbackRead`, `callbackClose` and `callbackError` set. -/
def demoCallbacks : Callbacks :=
  { callbackRead := true, callbackClose := true, callbackError := true }

/-- A serializer that yields 3 bytes at address 4096. -/
def msgA : CallbackSendSerializerT := ⟨1, (4096, 3)⟩

/-- A serializer that yields 5 bytes at address 8192. -/
def msgB : CallbackSendSerializerT := ⟨2, (8192, 5)⟩

/-- A serializer that yields a null pointer. -/
def msgNull : CallbackSendSerializerT := ⟨3, (0, 7)⟩

/-- A started client session with all three callbacks set. -/
def demoStart : SessionClient := started demoHost 8080 demoCallbacks

/-- A started client session with the default callback table `Callbacks()`. -/
def bareStart : SessionClient := started demoHost 8080 {}

/-- Two messages sent back to back, both `on_send` handlers run, no write completed. -/
def twoSends : List Event := [.sendAsync msgA, .sendAsync msgB, .runPosted, .runPosted]

/-- The session after `twoSends`. -/
def demoBusy : SessionClient := (exec demoStart twoSends).getD demoStart

/-- The startup chain up to `Open`: resolve, connect and handshake succeed. -/
def openUp : List Event :=
  [.resolveDone 0 [⟨1, 80⟩], .connectDone 0 ⟨1, 80⟩, .handshakeDone 0]

/-- An open session with one write in flight and one read outstanding. -/
def openAndWriting : List Event := openUp ++ [.sendAsync msgA, .runPosted]

/-- The session (all callbacks set) after `openAndWriting`. -/
def demoOpenBusy : SessionClient := (exec demoStart openAndWriting).getD demoStart

/-- The session `demoOpenBusy` after its read completed with error 104. -/
def demoReadFailed : SessionClient := (step demoOpenBusy (.readDone 104 0)).getD demoStart

/-- The session `demoOpenBusy` after its write completed with error 32. -/
def demoWriteFailed : SessionClient := (step demoOpenBusy (.writeDone 32 0)).getD demoStart

/-- The session (all callbacks set) after resolve succeeded. -/
def demoConnecting : SessionClient := (exec demoStart [.resolveDone 0 [⟨1, 80⟩]]).getD demoStart

/-- The session `demoConnecting` after its connect completed with error 111. -/
def demoConnectFailed : SessionClient :=
  (step demoConnecting (.connectDone 111 ⟨0, 0⟩)).getD demoStart

/-- The events `openAndWriting`, then the read and the write both complete with error 104. -/
def bothFail : List Event := openAndWriting ++ [.readDone 104 0, .writeDone 104 0]

/-- The session (all callbacks set) after `bothFail`. -/
def demoBothFailed : SessionClient := (exec demoStart bothFail).getD demoStart

/-- The session (all callbacks set) that is open and idle, after its read failed with 104. -/
def demoIdleReadFailed : SessionClient :=
  (exec demoStart (openUp ++ [.readDone 104 0])).getD demoStart

/-- The session with the default callback table, open, with one write in flight. -/
def bareOpenBusy : SessionClient := (exec bareStart openAndWriting).getD bareStart

/-- The session with the default callback table after resolve succeeded. -/
def bareConnecting : SessionClient := (exec bareStart [.resolveDone 0 [⟨1, 80⟩]]).getD bareStart

/-- The session with the default callback table, open and idle (one read outstanding). -/
def bareOpen : SessionClient := (exec bareStart openUp).getD bareStart

/-! ## The trace readers and concatenation -/

@[simp] theorem writesIssued_append (a b : List Effect) :
    writesIssued (a ++ b) = writesIssued a ++ writesIssued b := by
  induction a with
  | nil => rfl
  | cons e es ih => cases e <;> simp [writesIssued, ih]

@[simp] theorem readsIssued_append (a b : List Effect) :
    readsIssued (a ++ b) = readsIssued a + readsIssued b := by
  induction a with
  | nil => simp [readsIssued]
  | cons e es ih =>
    cases e <;> simp [readsIssued, ih]
    all_goals omega

@[simp] theorem startupIssued_append (a b : List Effect) :
    startupIssued (a ++ b) = startupIssued a + startupIssued b := by
  induction a with
  | nil => simp [startupIssued]
  | cons e es ih =>
    cases e <;> simp [startupIssued, ih]
    all_goals omega

@[simp] theorem callbacksInvoked_append (a b : List Effect) :
    callbacksInvoked (a ++ b) = callbacksInvoked a ++ callbacksInvoked b := by
  induction a with
  | nil => rfl
  | cons e es ih => cases e <;> simp [callbacksInvoked, ih]

@[simp] theorem errorCallbacks_append (a b : List Effect) :
    errorCallbacks (a ++ b) = errorCallbacks a + errorCallbacks b := by
  induction a with
  | nil => simp [errorCallbacks]
  | cons e es ih =>
    cases e <;> simp [errorCallbacks, ih]
    all_goals omega

@[simp] theorem closeCallbacks_append (a b : List Effect) :
    closeCallbacks (a ++ b) = closeCallbacks a + closeCallbacks b := by
  induction a with
  | nil => simp [closeCallbacks]
  | cons e es ih =>
    cases e <;> simp [closeCallbacks, ih]
    all_goals omega

@[simp] theorem readCallbacks_append (a b : List Effect) :
    readCallbacks (a ++ b) = readCallbacks a + readCallbacks b := by
  induction a with
  | nil => simp [readCallbacks]
  | cons e es ih =>
    cases e <;> simp [readCallbacks, ih]
    all_goals omega

/-! ## What `on_error` does -/

/-- The effects of one `on_error(ec)`: each of the two callbacks that is set, in order. -/
theorem on_error_eq (s : SessionClient) (ec : error_code) :
    s.on_error ec =
      { s with trace := s.trace
          ++ (if s.callbacks.callbackError then [Effect.callbackError s.endpoint ec] else [])
          ++ (if s.callbacks.callbackClose then [Effect.callbackClose s.endpoint ec] else []) } := by
  cases s with
  | mk b a p q cbs ep r c h rd w po tr =>
    cases cbs with
    | mk cr ca cc ce =>
      cases cc <;> cases ce <;> simp [SessionClient.on_error, SessionClient.emit]

/-! ## The write path -/

theorem WInv_of_Fresh {s : SessionClient} (h : Fresh s) : WInv s := Or.inl h.2

theorem on_error_queue (s : SessionClient) (ec : error_code) :
    (s.on_error ec).queue_ = s.queue_ := by rw [on_error_eq]

theorem on_error_writing (s : SessionClient) (ec : error_code) :
    (s.on_error ec).writing = s.writing := by rw [on_error_eq]

theorem on_error_posted (s : SessionClient) (ec : error_code) :
    (s.on_error ec).posted = s.posted := by rw [on_error_eq]

theorem on_error_writes (s : SessionClient) (ec : error_code) :
    writesIssued (s.on_error ec).trace = writesIssued s.trace := by
  rw [on_error_eq]
  by_cases h1 : s.callbacks.callbackError <;> by_cases h2 : s.callbacks.callbackClose <;>
    simp [h1, h2, writesIssued]

/-- An event other than a write completion and other than a posted `on_send` leaves the
write path alone. -/
theorem step_write_frame {s s' : SessionClient} {ev : Event} (h : step s ev = some s')
    (hw : ev.isWriteDone = false) (hp : ev ≠ .runPosted) :
    s'.queue_ = s.queue_ ∧ s'.writing = s.writing ∧
      writesIssued s'.trace = writesIssued s.trace := by
  cases ev with
  | resolveDone ec results =>
    simp only [step] at h
    split at h
    · exact absurd h (by simp)
    · cases h
      by_cases hec : ec = 0 <;>
        simp [SessionClient.on_resolve, hec, on_error_queue, on_error_writing, on_error_writes,
          SessionClient.async_connect, SessionClient.emit, writesIssued]
  | connectDone ec ep =>
    simp only [step] at h
    split at h
    · exact absurd h (by simp)
    · cases h
      by_cases hec : ec = 0 <;>
        simp [SessionClient.on_connect, hec, on_error_queue, on_error_writing, on_error_writes,
          SessionClient.async_handshake, SessionClient.emit, writesIssued]
  | handshakeDone ec =>
    simp only [step] at h
    split at h
    · exact absurd h (by simp)
    · cases h
      by_cases hec : ec = 0 <;>
        simp [SessionClient.on_handshake, hec, on_error_queue, on_error_writing, on_error_writes,
          SessionClient.async_read, SessionClient.emit, writesIssued]
  | readDone ec n =>
    simp only [step] at h
    split at h
    · exact absurd h (by simp)
    · cases h
      by_cases hec : ec = 0 <;> by_cases hcb : s.callbacks.callbackRead <;>
        simp [SessionClient.on_read, hec, hcb, on_error_queue, on_error_writing, on_error_writes,
          SessionClient.async_read, SessionClient.emit, writesIssued]
  | writeDone ec n => simp [Event.isWriteDone] at hw
  | sendAsync ser =>
    simp only [step] at h
    cases h
    by_cases hd : nullptr = ser.returns.1 ∨ 0 = ser.returns.2 <;>
      simp [SessionClient.sendAsync, hd, SessionClient.post_on_send, SessionClient.emit,
        writesIssued]
  | runPosted => exact absurd rfl hp

theorem on_send_empty (s : SessionClient) (e : SerializedAndReturnedT) (hq : s.queue_ = []) :
    s.on_send e =
      { s with queue_ := [e], writing := s.writing ++ [e.2],
               trace := s.trace ++ [Effect.async_write e.2.1 e.2.2] } := by
  simp [SessionClient.on_send, hq, SessionClient.async_write, SessionClient.emit]

theorem on_send_busy (s : SessionClient) (e : SerializedAndReturnedT) (hq : s.queue_ ≠ []) :
    s.on_send e = { s with queue_ := s.queue_ ++ [e] } := by
  cases hq' : s.queue_ with
  | nil => exact absurd hq' hq
  | cons a as => simp [SessionClient.on_send, hq']

theorem on_write_error (s : SessionClient) (ec : error_code) (n : Nat) (hec : ec ≠ 0) :
    s.on_write ec n = some (s.on_error ec) := by
  simp [SessionClient.on_write, hec]

theorem on_write_last (s : SessionClient) (n : Nat) (e : SerializedAndReturnedT)
    (hq : s.queue_ = [e]) :
    s.on_write 0 n = some { s with queue_ := [] } := by
  simp [SessionClient.on_write, hq]

theorem on_write_next (s : SessionClient) (n : Nat) (e e2 : SerializedAndReturnedT)
    (rest : List SerializedAndReturnedT) (hq : s.queue_ = e :: e2 :: rest) :
    s.on_write 0 n =
      some { s with queue_ := e2 :: rest, writing := s.writing ++ [e2.2],
                    trace := s.trace ++ [Effect.async_write e2.2.1 e2.2.2] } := by
  simp [SessionClient.on_write, hq, SessionClient.async_write, SessionClient.emit]

theorem step_runPosted {s s' : SessionClient} (h : step s .runPosted = some s') :
    ∃ e rest, s.posted = e :: rest ∧ s' = SessionClient.on_send { s with posted := rest } e := by
  simp only [step] at h
  split at h
  · exact absurd h (by simp)
  · rename_i e rest hp
    exact ⟨e, rest, hp, by cases h; rfl⟩

theorem step_writeDone {s s' : SessionClient} {ec : error_code} {n : Nat}
    (h : step s (.writeDone ec n) = some s') :
    ∃ b rest, s.writing = b :: rest ∧
      SessionClient.on_write { s with writing := rest } ec n = some s' := by
  simp only [step] at h
  split at h
  · exact absurd h (by simp)
  · rename_i b rest hp
    exact ⟨b, rest, hp, h⟩

/-- Every step keeps the write path consistent. -/
theorem WInv_step {s s' : SessionClient} {ev : Event} (hs : WInv s)
    (h : step s ev = some s') : WInv s' := by
  by_cases hw : ev.isWriteDone = false
  · by_cases hp : ev = .runPosted
    · subst hp
      obtain ⟨e, rest, _, rfl⟩ := step_runPosted h
      rcases hs with hs | ⟨a, as, hq, hwr⟩
      · by_cases hq : s.queue_ = []
        · rw [on_send_empty { s with posted := rest } e hq]
          exact Or.inr ⟨e, [], rfl, by simp [hs]⟩
        · rw [on_send_busy { s with posted := rest } e hq]
          exact Or.inl hs
      · rw [on_send_busy { s with posted := rest } e (by simp [hq])]
        exact Or.inr ⟨a, as ++ [e], by simp [hq], hwr⟩
    · obtain ⟨h1, h2, _⟩ := step_write_frame h hw hp
      unfold WInv
      rw [h1, h2]
      exact hs
  · cases ev with
    | writeDone ec n =>
      obtain ⟨b, rest, hwr, hon⟩ := step_writeDone h
      rcases hs with hs | ⟨a, as, hq, hwr'⟩
      · rw [hs] at hwr
        exact absurd hwr (by simp)
      · rw [hwr'] at hwr
        have hrest : rest = [] := by
          injection hwr with _ h2
          exact h2.symm
        subst hrest
        by_cases hec : ec = 0
        · subst hec
          cases as with
          | nil =>
            rw [on_write_last _ _ a (by simp [hq])] at hon
            cases hon
            exact Or.inl rfl
          | cons a2 as2 =>
            rw [on_write_next _ _ a a2 as2 (by simp [hq])] at hon
            cases hon
            exact Or.inr ⟨a2, as2, rfl, rfl⟩
        · rw [on_write_error _ _ _ hec] at hon
          cases hon
          exact Or.inl (by rw [on_error_writing])
    | _ => simp [Event.isWriteDone] at hw

theorem exec_cons {s s' : SessionClient} {ev : Event} {evs : List Event}
    (h : exec s (ev :: evs) = some s') : ∃ s1, step s ev = some s1 ∧ exec s1 evs = some s' := by
  simp only [exec] at h
  cases hs : step s ev with
  | none => simp [hs] at h
  | some s1 => exact ⟨s1, rfl, by simpa [hs] using h⟩

/-- An invariant of single steps holds after every sequence of events. -/
theorem exec_induction {P : SessionClient → Prop}
    (hstep : ∀ s s' ev, P s → step s ev = some s' → P s')
    {s s' : SessionClient} {evs : List Event} (h0 : P s) (h : exec s evs = some s') : P s' := by
  induction evs generalizing s with
  | nil =>
    simp only [exec] at h
    cases h
    exact h0
  | cons ev evs ih =>
    obtain ⟨s1, hs, he⟩ := exec_cons h
    exact ih (hstep _ _ _ h0 hs) he

theorem WInv_exec {s s' : SessionClient} {evs : List Event} (hs : WInv s)
    (h : exec s evs = some s') : WInv s' :=
  exec_induction (fun _ _ _ hP hst => WInv_step hP hst) hs h

/-- While a write is outstanding, a step that issues an `async_write` is the successful
completion of that write, and it issues the write of the second entry of `queue_`. -/
theorem write_only_in_on_write {s s' : SessionClient} {ev : Event} (hs : WInv s)
    (h : step s ev = some s') (hw : s.writing ≠ [])
    (hne : writesIssued s'.trace ≠ writesIssued s.trace) :
    ∃ n e1 e2 rest, ev = .writeDone 0 n ∧ s.queue_ = e1 :: e2 :: rest ∧
      writesIssued s'.trace = writesIssued s.trace ++ [e2.2] := by
  rcases hs with hs | ⟨a, as, hq, hwr⟩
  · exact absurd hs hw
  by_cases hwd : ev.isWriteDone = false
  · by_cases hp : ev = .runPosted
    · subst hp
      obtain ⟨e, rest, _, rfl⟩ := step_runPosted h
      rw [on_send_busy { s with posted := rest } e (by simp [hq])] at hne
      exact absurd rfl hne
    · exact absurd (step_write_frame h hwd hp).2.2 hne
  · cases ev with
    | writeDone ec n =>
      obtain ⟨b, rest, hwr2, hon⟩ := step_writeDone h
      by_cases hec : ec = 0
      · subst hec
        cases as with
        | nil =>
          rw [on_write_last _ _ a (by simp [hq])] at hon
          cases hon
          exact absurd rfl hne
        | cons a2 as2 =>
          rw [on_write_next _ _ a a2 as2 (by simp [hq])] at hon
          cases hon
          exact ⟨n, a, a2, as2, rfl, hq, by simp [writesIssued]⟩
      · rw [on_write_error _ _ _ hec] at hon
        cases hon
        rw [on_error_writes] at hne
        exact absurd rfl hne
    | _ => simp [Event.isWriteDone] at hwd

/-- Two non-empty messages sent back to back: the first `on_send` issues the first write,
the second `on_send` only queues, and the completion of the first write issues the second. -/
theorem two_sends (s0 : SessionClient) (h0 : Fresh s0) (hp : s0.posted = [])
    (a b : CallbackSendSerializerT) (ha : a.nonEmpty) (hb : b.nonEmpty) (n : Nat) :
    ∃ s2 s3, exec s0 [.sendAsync a, .sendAsync b, .runPosted, .runPosted] = some s2 ∧
      writesIssued s2.trace = writesIssued s0.trace ++ [a.returns] ∧
      s2.writing = [a.returns] ∧ s2.queue_ = [(a, a.returns), (b, b.returns)] ∧
      step s2 (.writeDone 0 n) = some s3 ∧
      writesIssued s3.trace = writesIssued s0.trace ++ [a.returns, b.returns] ∧
      s3.writing = [b.returns] ∧ s3.queue_ = [(b, b.returns)] := by
  obtain ⟨hq, hw⟩ := h0
  have ha' : ¬ (nullptr = a.returns.1 ∨ 0 = a.returns.2) := by
    rintro (h | h)
    · exact ha.1 h.symm
    · exact ha.2 h.symm
  have hb' : ¬ (nullptr = b.returns.1 ∨ 0 = b.returns.2) := by
    rintro (h | h)
    · exact hb.1 h.symm
    · exact hb.2 h.symm
  simp [exec, step, SessionClient.sendAsync, ha', hb', SessionClient.post_on_send,
    SessionClient.emit, hp, SessionClient.on_send, hq, hw, SessionClient.async_write,
    SessionClient.on_write, writesIssued]

/-- Completions of the startup and read chain do not touch the strand's posted handlers. -/
theorem step_posted_frame {s s' : SessionClient} {ev : Event} (h : step s ev = some s')
    (hw : ev.isWriteDone = false) (hp : ev ≠ .runPosted) (hsend : ∀ ser, ev ≠ .sendAsync ser) :
    s'.posted = s.posted := by
  cases ev with
  | resolveDone ec results =>
    simp only [step] at h
    split at h
    · exact absurd h (by simp)
    · cases h
      by_cases hec : ec = 0 <;>
        simp [SessionClient.on_resolve, hec, on_error_posted, SessionClient.async_connect,
          SessionClient.emit]
  | connectDone ec ep =>
    simp only [step] at h
    split at h
    · exact absurd h (by simp)
    · cases h
      by_cases hec : ec = 0 <;>
        simp [SessionClient.on_connect, hec, on_error_posted, SessionClient.async_handshake,
          SessionClient.emit]
  | handshakeDone ec =>
    simp only [step] at h
    split at h
    · exact absurd h (by simp)
    · cases h
      by_cases hec : ec = 0 <;>
        simp [SessionClient.on_handshake, hec, on_error_posted, SessionClient.async_read,
          SessionClient.emit]
  | readDone ec n =>
    simp only [step] at h
    split at h
    · exact absurd h (by simp)
    · cases h
      by_cases hec : ec = 0 <;> by_cases hcb : s.callbacks.callbackRead <;>
        simp [SessionClient.on_read, hec, hcb, on_error_posted, SessionClient.async_read,
          SessionClient.emit]
  | writeDone ec n => simp [Event.isWriteDone] at hw
  | sendAsync ser => exact absurd rfl (hsend ser)
  | runPosted => exact absurd rfl hp

theorem SendPhase_step {W : List (VoidPtr × Nat)} {sent : List SerializedAndReturnedT}
    {s s' : SessionClient} {ev : Event} (hs : SendPhase W sent s) (hev : ev.isSendPhase)
    (h : step s ev = some s') : SendPhase W (sent ++ sentEntries [ev]) s' := by
  obtain ⟨h1, h2, h3⟩ := hs
  cases ev with
  | writeDone ec n => exact absurd hev (by simp [Event.isSendPhase])
  | sendAsync ser =>
    have hne : ¬ (nullptr = ser.returns.1 ∨ 0 = ser.returns.2) := by
      rintro (h | h)
      · exact hev.1 h.symm
      · exact hev.2 h.symm
    simp only [step] at h
    cases h
    simp [SendPhase, SessionClient.sendAsync, hne, SessionClient.post_on_send,
      SessionClient.emit, sentEntries, writesIssued, ← h1, h2, h3]
  | runPosted =>
    obtain ⟨e, rest, hp, rfl⟩ := step_runPosted h
    by_cases hq : s.queue_ = []
    · rw [on_send_empty { s with posted := rest } e hq]
      simp [hq] at h2
      simp [SendPhase, sentEntries, ← h1, hq, hp, h2, h3, writesIssued]
    · rw [on_send_busy { s with posted := rest } e hq]
      obtain ⟨a, as, hq'⟩ := List.exists_cons_of_ne_nil hq
      simp [SendPhase, sentEntries, ← h1, hp, h2, h3, hq']
  | resolveDone ec results =>
    obtain ⟨f1, f2, f3⟩ := step_write_frame h rfl (by simp)
    have f4 := step_posted_frame h rfl (by simp) (by simp)
    simp [SendPhase, sentEntries, f1, f2, f3, f4, h1, h2, h3]
  | connectDone ec ep =>
    obtain ⟨f1, f2, f3⟩ := step_write_frame h rfl (by simp)
    have f4 := step_posted_frame h rfl (by simp) (by simp)
    simp [SendPhase, sentEntries, f1, f2, f3, f4, h1, h2, h3]
  | handshakeDone ec =>
    obtain ⟨f1, f2, f3⟩ := step_write_frame h rfl (by simp)
    have f4 := step_posted_frame h rfl (by simp) (by simp)
    simp [SendPhase, sentEntries, f1, f2, f3, f4, h1, h2, h3]
  | readDone ec n =>
    obtain ⟨f1, f2, f3⟩ := step_write_frame h rfl (by simp)
    have f4 := step_posted_frame h rfl (by simp) (by simp)
    simp [SendPhase, sentEntries, f1, f2, f3, f4, h1, h2, h3]

theorem sentEntries_cons (ev : Event) (evs : List Event) :
    sentEntries (ev :: evs) = sentEntries [ev] ++ sentEntries evs := by
  cases ev <;> simp [sentEntries]

theorem SendPhase_exec {W : List (VoidPtr × Nat)} {sent : List SerializedAndReturnedT}
    {s s' : SessionClient} {evs : List Event} (hs : SendPhase W sent s)
    (hev : ∀ ev ∈ evs, ev.isSendPhase) (h : exec s evs = some s') :
    SendPhase W (sent ++ sentEntries evs) s' := by
  induction evs generalizing s sent with
  | nil =>
    simp only [exec] at h
    cases h
    simpa [sentEntries] using hs
  | cons ev evs ih =>
    obtain ⟨s1, hst, he⟩ := exec_cons h
    have := ih (SendPhase_step hs (hev ev (by simp)) hst) (fun e he' => hev e (by simp [he'])) he
    rw [sentEntries_cons, ← List.append_assoc]
    exact this

/-- Draining: with the head of `queue_` being written, one successful write completion per
entry empties the queue and issues the writes of the remaining entries in order. -/
theorem drain (q : List SerializedAndReturnedT) (s : SessionClient) (ns : List Nat)
    (hq : s.queue_ = q) (hw : s.writing = (q.take 1).map Prod.snd) (hn : ns.length = q.length) :
    ∃ s', exec s (ns.map (Event.writeDone 0)) = some s' ∧ s'.queue_ = [] ∧ s'.writing = [] ∧
      s'.posted = s.posted ∧
      writesIssued s'.trace = writesIssued s.trace ++ (q.drop 1).map Prod.snd := by
  induction q generalizing s ns with
  | nil =>
    cases ns with
    | nil => exact ⟨s, rfl, hq, by simpa using hw, rfl, by simp⟩
    | cons n ns => simp at hn
  | cons e q ih =>
    cases ns with
    | nil => simp at hn
    | cons n ns =>
      have hw' : s.writing = [e.2] := by simpa using hw
      cases q with
      | nil =>
        have hns : ns = [] := by simpa using hn
        subst hns
        refine ⟨{ s with writing := [], queue_ := [] }, ?_, rfl, rfl, rfl, by simp⟩
        simp [exec, step, hw', SessionClient.on_write, hq]
      | cons e2 q2 =>
        have hst : step s (.writeDone 0 n) =
            some { s with queue_ := e2 :: q2, writing := [e2.2],
                          trace := s.trace ++ [Effect.async_write e2.2.1 e2.2.2] } := by
          simp [step, hw', SessionClient.on_write, hq, SessionClient.async_write,
            SessionClient.emit]
        obtain ⟨s', he, h1, h2, h3, h4⟩ := ih
          { s with queue_ := e2 :: q2, writing := [e2.2],
                   trace := s.trace ++ [Effect.async_write e2.2.1 e2.2.2] } ns rfl (by simp)
          (by simpa using hn)
        refine ⟨s', ?_, h1, h2, h3, ?_⟩
        · simp only [List.map_cons, exec, hst, Option.some_bind]
          exact he
        · simpa [writesIssued] using h4

/-! ## The startup and read chain -/

theorem on_error_eq_effects (s : SessionClient) (ec : error_code) :
    s.on_error ec = { s with trace := s.trace ++ errorEffects s ec } := by
  rw [on_error_eq, errorEffects, List.append_assoc]

theorem errorEffects_counts (s : SessionClient) (ec : error_code) :
    writesIssued (errorEffects s ec) = [] ∧ readsIssued (errorEffects s ec) = 0 ∧
      startupIssued (errorEffects s ec) = 0 ∧ readCallbacks (errorEffects s ec) = 0 ∧
      errorCallbacks (errorEffects s ec) ≤ 1 ∧ closeCallbacks (errorEffects s ec) ≤ 1 := by
  unfold errorEffects
  by_cases h1 : s.callbacks.callbackError <;> by_cases h2 : s.callbacks.callbackClose <;>
    simp [h1, h2, writesIssued, readsIssued, startupIssued, readCallbacks, errorCallbacks,
      closeCallbacks]

/-- An event of the write path (a write completion, a `sendAsync`, a posted `on_send`)
changes only `queue_`, `writing`, `posted` and the trace, and what it adds to the trace holds
no startup operation, no read and no `callbackRead`; it holds a callback only when the event
is a write completion with an error, and then at most one of each kind. -/
theorem step_write_path {s s' : SessionClient} {ev : Event} (h : step s ev = some s')
    (hc : ev.isChain = false) :
    ∃ q w p t, s' = { s with queue_ := q, writing := w, posted := p, trace := s.trace ++ t } ∧
      startupIssued t = 0 ∧ readsIssued t = 0 ∧ readCallbacks t = 0 ∧
      (ev.isWriteError = false → callbacksInvoked t = []) ∧
      errorCallbacks t ≤ (if ev.isWriteError then 1 else 0) ∧
      closeCallbacks t ≤ (if ev.isWriteError then 1 else 0) := by
  cases ev with
  | resolveDone ec results => simp [Event.isChain] at hc
  | connectDone ec ep => simp [Event.isChain] at hc
  | handshakeDone ec => simp [Event.isChain] at hc
  | readDone ec n => simp [Event.isChain] at hc
  | sendAsync ser =>
    simp only [step] at h
    cases h
    by_cases hd : nullptr = ser.returns.1 ∨ 0 = ser.returns.2
    · refine ⟨s.queue_, s.writing, s.posted, [Effect.serializer_call ser], ?_, ?_⟩
      · simp [SessionClient.sendAsync, hd, SessionClient.emit]
      · simp [startupIssued, readsIssued, readCallbacks, callbacksInvoked, errorCallbacks,
          closeCallbacks]
    · refine ⟨s.queue_, s.writing, s.posted ++ [(ser, ser.returns)],
        [Effect.serializer_call ser, Effect.post_on_send (ser, ser.returns)], ?_, ?_⟩
      · simp [SessionClient.sendAsync, hd, SessionClient.emit, SessionClient.post_on_send]
      · simp [startupIssued, readsIssued, readCallbacks, callbacksInvoked, errorCallbacks,
          closeCallbacks]
  | runPosted =>
    obtain ⟨e, rest, _, rfl⟩ := step_runPosted h
    by_cases hq : s.queue_ = []
    · rw [on_send_empty { s with posted := rest } e hq]
      exact ⟨[e], s.writing ++ [e.2], rest, [Effect.async_write e.2.1 e.2.2], rfl, by
        simp [startupIssued, readsIssued, readCallbacks, callbacksInvoked, errorCallbacks,
          closeCallbacks]⟩
    · rw [on_send_busy { s with posted := rest } e hq]
      exact ⟨s.queue_ ++ [e], s.writing, rest, [], by simp, by
        simp [startupIssued, readsIssued, readCallbacks, callbacksInvoked, errorCallbacks,
          closeCallbacks]⟩
  | writeDone ec n =>
    obtain ⟨b, rest, _, hon⟩ := step_writeDone h
    by_cases hec : ec = 0
    · subst hec
      cases hq : s.queue_ with
      | nil => simp [SessionClient.on_write, hq] at hon
      | cons a as =>
        cases as with
        | nil =>
          rw [on_write_last _ _ a (by simp [hq])] at hon
          cases hon
          exact ⟨[], rest, s.posted, [], by simp, by
            simp [startupIssued, readsIssued, readCallbacks, callbacksInvoked, errorCallbacks,
              closeCallbacks]⟩
        | cons a2 as2 =>
          rw [on_write_next _ _ a a2 as2 (by simp [hq])] at hon
          cases hon
          exact ⟨a2 :: as2, rest ++ [a2.2], s.posted, [Effect.async_write a2.2.1 a2.2.2],
            by simp, by
            simp [startupIssued, readsIssued, readCallbacks, callbacksInvoked, errorCallbacks,
              closeCallbacks]⟩
    · rw [on_write_error _ _ _ hec, on_error_eq_effects] at hon
      cases hon
      obtain ⟨_, e2, e3, e4, e5, e6⟩ :=
        errorEffects_counts { s with writing := rest } ec
      refine ⟨s.queue_, rest, s.posted, errorEffects { s with writing := rest } ec, rfl,
        e3, e2, e4, ?_, ?_, ?_⟩
      · simp [Event.isWriteError, hec]
      · simpa [Event.isWriteError, hec] using e5
      · simpa [Event.isWriteError, hec] using e6

/-- A completion of the startup and read chain leaves the write path alone and retires one
outstanding operation of the chain; without error it issues one new operation of the chain,
with an error it issues none and invokes at most one `callbackError` and one
`callbackClose`. -/
theorem step_chain {s s' : SessionClient} {ev : Event} (h : step s ev = some s')
    (hc : ev.isChain = true) :
    ∃ t, s'.trace = s.trace ++ t ∧ s'.queue_ = s.queue_ ∧ s'.writing = s.writing ∧
      s'.posted = s.posted ∧ 1 ≤ chainOps s ∧
      chainOps s' + (if ev.isChainError then 1 else 0) = chainOps s ∧
      writesIssued t = [] ∧
      errorCallbacks t ≤ (if ev.isChainError then 1 else 0) ∧
      closeCallbacks t ≤ (if ev.isChainError then 1 else 0) ∧
      (ev.isChainError = true →
        startupIssued t = 0 ∧ readsIssued t = 0 ∧ readCallbacks t = 0) := by
  cases ev with
  | sendAsync ser => simp [Event.isChain] at hc
  | runPosted => simp [Event.isChain] at hc
  | writeDone ec n => simp [Event.isChain] at hc
  | resolveDone ec results =>
    simp only [step] at h
    split at h
    · exact absurd h (by simp)
    · rename_i hpos
      cases h
      by_cases hec : ec = 0
      · refine ⟨[Effect.expires_after 30, Effect.async_connect results], ?_⟩
        simp [SessionClient.on_resolve, hec, SessionClient.async_connect, SessionClient.emit,
          chainOps, Event.isChainError, writesIssued, errorCallbacks, closeCallbacks]
        omega
      · obtain ⟨e1, e2, e3, e4, e5, e6⟩ :=
          errorEffects_counts { s with resolving := s.resolving - 1 } ec
        refine ⟨errorEffects { s with resolving := s.resolving - 1 } ec, ?_⟩
        simp [SessionClient.on_resolve, hec, on_error_eq_effects, chainOps,
          Event.isChainError, e1, e2, e3, e4, e5, e6]
        omega
  | connectDone ec ep =>
    simp only [step] at h
    split at h
    · exact absurd h (by simp)
    · rename_i hpos
      cases h
      by_cases hec : ec = 0
      · refine ⟨[Effect.expires_never, Effect.set_option_timeout_suggested_client,
          Effect.set_option_decorator,
          Effect.async_handshake (s.serverAddress ++ (":" ++ toString ep.port)) "/"], ?_⟩
        simp [SessionClient.on_connect, hec, SessionClient.async_handshake,
          SessionClient.emit, chainOps, Event.isChainError, writesIssued, errorCallbacks,
          closeCallbacks]
        omega
      · obtain ⟨e1, e2, e3, e4, e5, e6⟩ :=
          errorEffects_counts { s with connecting := s.connecting - 1, endpoint := ep } ec
        refine ⟨errorEffects { s with connecting := s.connecting - 1, endpoint := ep } ec, ?_⟩
        simp [SessionClient.on_connect, hec, on_error_eq_effects, chainOps,
          Event.isChainError, e1, e2, e3, e4, e5, e6]
        omega
  | handshakeDone ec =>
    simp only [step] at h
    split at h
    · exact absurd h (by simp)
    · rename_i hpos
      cases h
      by_cases hec : ec = 0
      · refine ⟨[Effect.async_read s.buffer_], ?_⟩
        simp [SessionClient.on_handshake, hec, SessionClient.async_read,
          SessionClient.emit, chainOps, Event.isChainError, writesIssued, errorCallbacks,
          closeCallbacks]
        omega
      · obtain ⟨e1, e2, e3, e4, e5, e6⟩ :=
          errorEffects_counts { s with handshaking := s.handshaking - 1 } ec
        refine ⟨errorEffects { s with handshaking := s.handshaking - 1 } ec, ?_⟩
        simp [SessionClient.on_handshake, hec, on_error_eq_effects, chainOps,
          Event.isChainError, e1, e2, e3, e4, e5, e6]
        omega
  | readDone ec n =>
    simp only [step] at h
    split at h
    · exact absurd h (by simp)
    · rename_i hpos
      cases h
      by_cases hec : ec = 0
      · by_cases hcb : s.callbacks.callbackRead
        · refine ⟨[Effect.callbackRead s.endpoint (s.buffer_.commit n).data.1 n,
            Effect.async_read ((s.buffer_.commit n).consume (s.buffer_.commit n).size)], ?_⟩
          simp [SessionClient.on_read, hec, hcb, SessionClient.async_read,
            SessionClient.emit, chainOps, Event.isChainError, writesIssued, errorCallbacks,
            closeCallbacks]
          omega
        · refine ⟨[Effect.async_read ((s.buffer_.commit n).consume (s.buffer_.commit n).size)],
            ?_⟩
          simp [SessionClient.on_read, hec, hcb, SessionClient.async_read,
            SessionClient.emit, chainOps, Event.isChainError, writesIssued, errorCallbacks,
            closeCallbacks]
          omega
      · obtain ⟨e1, e2, e3, e4, e5, e6⟩ :=
          errorEffects_counts
            { s with reading := s.reading - 1, buffer_ := s.buffer_.commit n } ec
        refine ⟨errorEffects
          { s with reading := s.reading - 1, buffer_ := s.buffer_.commit n } ec, ?_⟩
        simp [SessionClient.on_read, hec, on_error_eq_effects, chainOps,
          Event.isChainError, e1, e2, e3, e4, e5, e6]
        omega

/-- Once no operation of the startup and read chain is outstanding, none is ever issued
again, `callbackRead` is never invoked again, and no callback at all is invoked by events
other than write completions with an error. -/
theorem chain_dead_step {s s' : SessionClient} {ev : Event} (hs : chainOps s = 0)
    (h : step s ev = some s') :
    chainOps s' = 0 ∧ startupIssued s'.trace = startupIssued s.trace ∧
      readsIssued s'.trace = readsIssued s.trace ∧
      readCallbacks s'.trace = readCallbacks s.trace ∧
      (ev.isWriteError = false → callbacksInvoked s'.trace = callbacksInvoked s.trace) := by
  by_cases hc : ev.isChain = true
  · obtain ⟨t, _, _, _, _, h1, _⟩ := step_chain h hc
    omega
  · obtain ⟨q, w, p, t, rfl, h1, h2, h3, h4, _⟩ := step_write_path h (by simpa using hc)
    refine ⟨by simpa [chainOps] using hs, by simp [h1], by simp [h2], by simp [h3], ?_⟩
    intro hw
    simp [h4 hw]

theorem chain_dead_exec {s s' : SessionClient} {evs : List Event} (hs : chainOps s = 0)
    (h : exec s evs = some s') :
    chainOps s' = 0 ∧ startupIssued s'.trace = startupIssued s.trace ∧
      readsIssued s'.trace = readsIssued s.trace ∧
      readCallbacks s'.trace = readCallbacks s.trace ∧
      (writeErrors evs = 0 → callbacksInvoked s'.trace = callbacksInvoked s.trace) := by
  induction evs generalizing s with
  | nil =>
    simp only [exec] at h
    cases h
    exact ⟨hs, rfl, rfl, rfl, fun _ => rfl⟩
  | cons ev evs ih =>
    obtain ⟨s1, hst, he⟩ := exec_cons h
    obtain ⟨a1, a2, a3, a4, a5⟩ := chain_dead_step hs hst
    obtain ⟨b1, b2, b3, b4, b5⟩ := ih a1 he
    refine ⟨b1, b2.trans a2, b3.trans a3, b4.trans a4, ?_⟩
    intro hw
    simp only [writeErrors] at hw
    have hev : ev.isWriteError = false := by
      cases hb : ev.isWriteError with
      | false => rfl
      | true => simp [hb] at hw
    have hrest : writeErrors evs = 0 := by omega
    exact (b5 hrest).trans (a5 hev)

/-- Once the write chain has stopped it stays stopped: no step issues an `async_write`, and
`queue_` only grows at its tail. -/
theorem write_stopped_step {s s' : SessionClient} {ev : Event} (hs : WriteStopped s)
    (h : step s ev = some s') :
    WriteStopped s' ∧ writesIssued s'.trace = writesIssued s.trace ∧
      ∃ later, s'.queue_ = s.queue_ ++ later := by
  obtain ⟨hw, hq⟩ := hs
  by_cases hwd : ev.isWriteDone = false
  · by_cases hp : ev = .runPosted
    · subst hp
      obtain ⟨e, rest, _, rfl⟩ := step_runPosted h
      rw [on_send_busy { s with posted := rest } e hq]
      exact ⟨⟨hw, by simp⟩, rfl, [e], rfl⟩
    · obtain ⟨f1, f2, f3⟩ := step_write_frame h hwd hp
      exact ⟨⟨by rw [f2]; exact hw, by rw [f1]; exact hq⟩, f3, [], by simp [f1]⟩
  · cases ev with
    | writeDone ec n =>
      obtain ⟨b, rest, hwr, _⟩ := step_writeDone h
      rw [hw] at hwr
      exact absurd hwr (by simp)
    | _ => simp [Event.isWriteDone] at hwd

theorem write_stopped_exec {s s' : SessionClient} {evs : List Event} (hs : WriteStopped s)
    (h : exec s evs = some s') :
    WriteStopped s' ∧ writesIssued s'.trace = writesIssued s.trace ∧
      ∃ later, s'.queue_ = s.queue_ ++ later := by
  induction evs generalizing s with
  | nil =>
    simp only [exec] at h
    cases h
    exact ⟨hs, rfl, [], by simp⟩
  | cons ev evs ih =>
    obtain ⟨s1, hst, he⟩ := exec_cons h
    obtain ⟨a1, a2, l1, a3⟩ := write_stopped_step hs hst
    obtain ⟨b1, b2, l2, b3⟩ := ih a1 he
    exact ⟨b1, b2.trans a2, l1 ++ l2, by rw [b3, a3, List.append_assoc]⟩

/-- A write completion with an error stops the write chain. -/
theorem write_error_stops {s s' : SessionClient} {ec : error_code} {n : Nat} (hs : WInv s)
    (hec : ec ≠ 0) (h : step s (.writeDone ec n) = some s') :
    s' = SessionClient.on_error { s with writing := [] } ec ∧ WriteStopped s' := by
  obtain ⟨b, rest, hwr, hon⟩ := step_writeDone h
  rcases hs with hs | ⟨a, as, hq, hwr'⟩
  · rw [hs] at hwr
    exact absurd hwr (by simp)
  · rw [hwr'] at hwr
    have hrest : rest = [] := by
      injection hwr with _ h2
      exact h2.symm
    subst hrest
    rw [on_write_error _ _ _ hec] at hon
    cases hon
    refine ⟨rfl, ?_, ?_⟩
    · rw [on_error_writing]
    · rw [on_error_queue]
      simp [hq]

theorem writeAlive_of_stopped {s : SessionClient} (h : WriteStopped s) : writeAlive s = 0 := by
  obtain ⟨hw, hq⟩ := h
  obtain ⟨a, as, hq'⟩ := List.exists_cons_of_ne_nil hq
  simp [writeAlive, hw, hq']

theorem writeAlive_le_one (s : SessionClient) : writeAlive s ≤ 1 := by
  unfold writeAlive
  split <;> simp

theorem writeAlive_of_writing {s : SessionClient} (h : s.writing ≠ []) : writeAlive s = 1 := by
  obtain ⟨a, as, hw⟩ := List.exists_cons_of_ne_nil h
  simp [writeAlive, hw]

/-- The budget of `on_error` calls: an error completion of the startup and read chain uses
up the one outstanding operation of that chain, an error completion of a write stops the
write chain, and a step invokes `callbackError` and `callbackClose` at most once each, and
only when it is an error completion. -/
theorem budget_step {s s' : SessionClient} {ev : Event} (hs : WInv s)
    (h : step s ev = some s') :
    chainOps s' + (if ev.isChainError then 1 else 0) ≤ chainOps s ∧
      writeAlive s' + (if ev.isWriteError then 1 else 0) ≤ writeAlive s ∧
      errorCallbacks s'.trace ≤ errorCallbacks s.trace
        + (if ev.isChainError then 1 else 0) + (if ev.isWriteError then 1 else 0) ∧
      closeCallbacks s'.trace ≤ closeCallbacks s.trace
        + (if ev.isChainError then 1 else 0) + (if ev.isWriteError then 1 else 0) := by
  by_cases hc : ev.isChain = true
  · obtain ⟨t, ht, hq, hw, _, _, h1, _, h2, h3, _⟩ := step_chain h hc
    have hwe : ev.isWriteError = false := by
      cases ev <;> simp_all [Event.isChain, Event.isWriteError]
    refine ⟨by omega, ?_, ?_, ?_⟩
    · simp [writeAlive, hq, hw, hwe]
    · rw [ht]
      simp only [errorCallbacks_append, hwe]
      simp only [Bool.false_eq_true, if_false]
      omega
    · rw [ht]
      simp only [closeCallbacks_append, hwe]
      simp only [Bool.false_eq_true, if_false]
      omega
  · have hce : ev.isChainError = false := by
      cases ev <;> simp_all [Event.isChain, Event.isChainError]
    have hwa : writeAlive s' + (if ev.isWriteError then 1 else 0) ≤ writeAlive s := by
      cases ev with
      | resolveDone ec results => simp [Event.isChain] at hc
      | connectDone ec ep => simp [Event.isChain] at hc
      | handshakeDone ec => simp [Event.isChain] at hc
      | readDone ec n => simp [Event.isChain] at hc
      | sendAsync ser =>
        obtain ⟨f1, f2, _⟩ := step_write_frame h rfl (by simp)
        simp [writeAlive, f1, f2, Event.isWriteError]
      | runPosted =>
        obtain ⟨e, rest, _, rfl⟩ := step_runPosted h
        by_cases hq : s.queue_ = []
        · rw [on_send_empty { s with posted := rest } e hq]
          simp only [Event.isWriteError, Bool.false_eq_true, if_false, Nat.add_zero]
          simp only [writeAlive, hq]
          cases hwr : s.writing <;> simp
        · rw [on_send_busy { s with posted := rest } e hq]
          obtain ⟨a, as, hq'⟩ := List.exists_cons_of_ne_nil hq
          simp only [Event.isWriteError, Bool.false_eq_true, if_false, Nat.add_zero]
          simp only [writeAlive, hq']
          cases hwr : s.writing <;> simp
      | writeDone ec n =>
        by_cases hec : ec = 0
        · subst hec
          obtain ⟨b, rest, hwr, hon⟩ := step_writeDone h
          rcases hs with hs | ⟨a, as, hq, hwr'⟩
          · rw [hs] at hwr
            exact absurd hwr (by simp)
          · cases as with
            | nil =>
              rw [on_write_last _ _ a (by simp [hq])] at hon
              cases hon
              simp [Event.isWriteError, writeAlive, hq, hwr']
            | cons a2 as2 =>
              rw [on_write_next _ _ a a2 as2 (by simp [hq])] at hon
              cases hon
              rw [hwr'] at hwr
              have hrest : rest = [] := by
                injection hwr with _ h2
                exact h2.symm
              subst hrest
              simp [Event.isWriteError, writeAlive, hq, hwr']
        · obtain ⟨_, hst⟩ := write_error_stops hs hec h
          obtain ⟨b, rest, hwr, _⟩ := step_writeDone h
          have h0 := writeAlive_of_stopped hst
          have h1 := writeAlive_of_writing (s := s) (by simp [hwr])
          simp only [Event.isWriteError, bne_iff_ne, ne_eq, hec, not_false_eq_true, if_true]
          omega
    obtain ⟨q, w, p, t, rfl, _, _, _, _, h5, h6⟩ := step_write_path h (by simpa using hc)
    refine ⟨by simp [chainOps, hce], hwa, ?_, ?_⟩
    · simp only [errorCallbacks_append, hce]
      simp only [Bool.false_eq_true, if_false]
      omega
    · simp only [closeCallbacks_append, hce]
      simp only [Bool.false_eq_true, if_false]
      omega

theorem budget_exec {s s' : SessionClient} {evs : List Event} (hs : WInv s)
    (h : exec s evs = some s') :
    chainOps s' + chainErrors evs ≤ chainOps s ∧
      writeAlive s' + writeErrors evs ≤ writeAlive s ∧
      errorCallbacks s'.trace ≤ errorCallbacks s.trace + chainErrors evs + writeErrors evs ∧
      closeCallbacks s'.trace ≤ closeCallbacks s.trace + chainErrors evs + writeErrors evs := by
  induction evs generalizing s with
  | nil =>
    simp only [exec] at h
    cases h
    simp [chainErrors, writeErrors]
  | cons ev evs ih =>
    obtain ⟨s1, hst, he⟩ := exec_cons h
    obtain ⟨a1, a2, a3, a4⟩ := budget_step hs hst
    obtain ⟨b1, b2, b3, b4⟩ := ih (WInv_step hs hst) he
    simp only [chainErrors, writeErrors]
    refine ⟨by omega, by omega, by omega, by omega⟩

/-- Every `async_write` issued is either completed by a write completion or outstanding. -/
theorem writes_balance_step {s s' : SessionClient} {ev : Event} (h : step s ev = some s') :
    (writesIssued s'.trace).length + s.writing.length =
      (writesIssued s.trace).length + s'.writing.length + (if ev.isWriteDone then 1 else 0) := by
  by_cases hc : ev.isChain = true
  · obtain ⟨t, ht, _, hw, _, _, _, h1, _⟩ := step_chain h hc
    have hwd : ev.isWriteDone = false := by
      cases ev <;> simp_all [Event.isChain, Event.isWriteDone]
    simp [ht, hw, h1, hwd]
  · cases ev with
    | resolveDone ec results => simp [Event.isChain] at hc
    | connectDone ec ep => simp [Event.isChain] at hc
    | handshakeDone ec => simp [Event.isChain] at hc
    | readDone ec n => simp [Event.isChain] at hc
    | sendAsync ser =>
      obtain ⟨_, f2, f3⟩ := step_write_frame h rfl (by simp)
      simp [f2, f3, Event.isWriteDone]
    | runPosted =>
      obtain ⟨e, rest, _, rfl⟩ := step_runPosted h
      by_cases hq : s.queue_ = []
      · rw [on_send_empty { s with posted := rest } e hq]
        simp [Event.isWriteDone, writesIssued]
        omega
      · rw [on_send_busy { s with posted := rest } e hq]
        simp [Event.isWriteDone]
    | writeDone ec n =>
      obtain ⟨b, rest, hwr, hon⟩ := step_writeDone h
      by_cases hec : ec = 0
      · subst hec
        cases hq : s.queue_ with
        | nil => simp [SessionClient.on_write, hq] at hon
        | cons a as =>
          cases as with
          | nil =>
            rw [on_write_last _ _ a (by simp [hq])] at hon
            cases hon
            simp [Event.isWriteDone, hwr]
            omega
          | cons a2 as2 =>
            rw [on_write_next _ _ a a2 as2 (by simp [hq])] at hon
            cases hon
            simp [Event.isWriteDone, hwr, writesIssued]
            omega
      · rw [on_write_error _ _ _ hec] at hon
        cases hon
        simp [Event.isWriteDone, hwr, on_error_writes, on_error_writing]
        omega

theorem writes_balance_exec {s s' : SessionClient} {evs : List Event}
    (h : exec s evs = some s') :
    (writesIssued s'.trace).length + s.writing.length =
      (writesIssued s.trace).length + s'.writing.length + writeCompletions evs := by
  induction evs generalizing s with
  | nil =>
    simp only [exec] at h
    cases h
    simp [writeCompletions]
  | cons ev evs ih =>
    obtain ⟨s1, hst, he⟩ := exec_cons h
    have a := writes_balance_step hst
    have b := ih he
    simp only [writeCompletions]
    omega

theorem WInv_writing_le {s : SessionClient} (h : WInv s) : s.writing.length ≤ 1 := by
  rcases h with h | ⟨e, rest, _, h⟩ <;> simp [h]

theorem demoStart_fresh : Fresh demoStart := ⟨rfl, rfl⟩

theorem demoBusy_exec : exec demoStart twoSends = some demoBusy := rfl

/-! ## The claims -/

/-- C1: at most one write is in flight per Session.  In every state `s` reached from a fresh
session `s0` (empty `queue_`, no write outstanding) by any sequence of events,
the `async_write` operations issued since `s0` and not completed are exactly the ones recorded
in `s.writing`, and there are 0 or 1 of them.  While a write is outstanding, a step that
issues an `async_write` is the successful `on_write` completing it, and it writes the second
entry of `queue_`.  For two non-empty `sendAsync` calls made back to back on a fresh session
with nothing posted, the first
`on_send` issues the first write, the second `on_send` issues none, and the `on_write` that
completes the first write issues the second. -/
theorem c1_single_write_in_flight (s0 s : SessionClient) (evs : List Event) (h0 : Fresh s0)
    (h : exec s0 evs = some s) :
    ((writesIssued s.trace).length =
        (writesIssued s0.trace).length + writeCompletions evs + s.writing.length ∧
      s.writing.length ≤ 1) ∧
    (∀ ev s', step s ev = some s' → s.writing ≠ [] →
      writesIssued s'.trace ≠ writesIssued s.trace →
      ∃ n e1 e2 rest, ev = .writeDone 0 n ∧ s.queue_ = e1 :: e2 :: rest ∧
        writesIssued s'.trace = writesIssued s.trace ++ [e2.2]) ∧
    (∀ a b : CallbackSendSerializerT, s0.posted = [] →
      a.returns.1 ≠ nullptr ∧ a.returns.2 ≠ 0 → b.returns.1 ≠ nullptr ∧ b.returns.2 ≠ 0 →
      ∀ n, ∃ s2 s3,
        exec s0 [.sendAsync a, .sendAsync b, .runPosted, .runPosted] = some s2 ∧
        writesIssued s2.trace = writesIssued s0.trace ++ [a.returns] ∧
        s2.writing = [a.returns] ∧ s2.queue_ = [(a, a.returns), (b, b.returns)] ∧
        step s2 (.writeDone 0 n) = some s3 ∧
        writesIssued s3.trace = writesIssued s0.trace ++ [a.returns, b.returns] ∧
        s3.writing = [b.returns] ∧ s3.queue_ = [(b, b.returns)]) := by
  have hW : WInv s := WInv_exec (WInv_of_Fresh h0) h
  refine ⟨⟨?_, WInv_writing_le hW⟩, ?_, ?_⟩
  · have := writes_balance_exec h
    rw [h0.2] at this
    simp only [List.length_nil, Nat.add_zero] at this
    omega
  · intro ev s' hst hw hne
    exact write_only_in_on_write hW hst hw hne
  · intro a b hp ha hb n
    exact two_sends s0 h0 hp a b ha hb n

/-- C1 at a concrete session: after two sends one write is in flight. -/
theorem c1_single_write_in_flight_witness :
    Fresh demoStart ∧ exec demoStart twoSends = some demoBusy ∧
      (writesIssued demoBusy.trace).length =
        (writesIssued demoStart.trace).length + writeCompletions twoSends
          + demoBusy.writing.length ∧
      demoBusy.writing.length ≤ 1 ∧ demoBusy.writing = [(4096, 3)] :=
  ⟨demoStart_fresh, demoBusy_exec,
    (c1_single_write_in_flight demoStart demoBusy twoSends demoStart_fresh demoBusy_exec).1.1,
    (c1_single_write_in_flight demoStart demoBusy twoSends demoStart_fresh demoBusy_exec).1.2,
    rfl⟩

/-- C2: FIFO delivery.  From a fresh session `s0` with nothing posted, let `evs` be any
sequence of events that holds no write completion and whose `sendAsync` calls all carry
non-empty messages, after which every posted `on_send` has run (`posted` is empty); let `N`
be the number of `sendAsync` calls in it.  Then `N` successful write completions can be delivered one after the other, the
`async_write` operations issued since `s0` are exactly `N`, the k-th of them carries the pair
returned by the serializer of the k-th `sendAsync` call, and `queue_` is empty and no write is
outstanding after the `N`-th `on_write`. -/
theorem c2_fifo_delivery (s0 s1 : SessionClient) (evs : List Event) (ns : List Nat)
    (h0 : Fresh s0) (hp0 : s0.posted = []) (hphase : ∀ ev ∈ evs, ev.isSendPhase)
    (h1 : exec s0 evs = some s1) (hposted : s1.posted = [])
    (hN : ns.length = (sentEntries evs).length) :
    s1.queue_ = sentEntries evs ∧
    ∃ s2, exec s1 (ns.map (Event.writeDone 0)) = some s2 ∧
      writesIssued s2.trace = writesIssued s0.trace ++ (sentEntries evs).map Prod.snd ∧
      (writesIssued s2.trace).length = (writesIssued s0.trace).length + ns.length ∧
      s2.queue_ = [] ∧ s2.writing = [] := by
  have hinit : SendPhase (writesIssued s0.trace) [] s0 := by
    obtain ⟨hq, hw⟩ := h0
    simp [SendPhase, hq, hw, hp0]
  obtain ⟨p1, p2, p3⟩ := SendPhase_exec hinit hphase h1
  rw [hposted, List.append_nil, List.nil_append] at p1
  obtain ⟨s2, e1, e2, e3, _, e5⟩ := drain s1.queue_ s1 ns rfl p2 (by rw [hN, p1])
  have hall : writesIssued s2.trace
      = writesIssued s0.trace ++ (sentEntries evs).map Prod.snd := by
    rw [e5, p3, p2, List.append_assoc, ← List.map_append, List.take_append_drop, p1]
  refine ⟨p1, s2, e1, hall, ?_, e2, e3⟩
  rw [hall, List.length_append, List.length_map, hN]

/-- C2 at a concrete session: two messages, written in the order of the calls. -/
theorem c2_fifo_delivery_witness :
    Fresh demoStart ∧ demoStart.posted = [] ∧ (∀ ev ∈ twoSends, ev.isSendPhase) ∧
      exec demoStart twoSends = some demoBusy ∧ demoBusy.posted = [] ∧
      [3, 5].length = (sentEntries twoSends).length ∧
      ∃ s2, exec demoBusy ([3, 5].map (Event.writeDone 0)) = some s2 ∧
        writesIssued s2.trace = writesIssued demoStart.trace
          ++ (sentEntries twoSends).map Prod.snd ∧
        (writesIssued s2.trace).length = (writesIssued demoStart.trace).length + [3, 5].length ∧
        s2.queue_ = [] ∧ s2.writing = [] :=
  have hphase : ∀ ev ∈ twoSends, ev.isSendPhase := by
    intro ev hev
    simp only [twoSends, List.mem_cons, List.mem_singleton, List.mem_nil_iff, or_false] at hev
    rcases hev with rfl | rfl | rfl | rfl
    · exact ⟨by decide, by decide⟩
    · exact ⟨by decide, by decide⟩
    · trivial
    · trivial
  ⟨demoStart_fresh, rfl, hphase, demoBusy_exec, rfl, rfl,
    (c2_fifo_delivery demoStart demoBusy twoSends [3, 5] demoStart_fresh rfl hphase
      demoBusy_exec rfl rfl).2⟩

/-- C3: empty-message drop.  For every session state, `sendAsync` with a serializer whose
pair has a null pointer or a zero length invokes the serializer once and changes nothing else:
no `on_send` is posted, `queue_` is unchanged and no `async_write` is issued.  With a non-null
pointer and a non-zero length it invokes the serializer once and posts exactly one `on_send`
carrying the entry (serializer, pair). -/
theorem c3_empty_message_drop (s : SessionClient) (serializer : CallbackSendSerializerT) :
    (serializer.returns.1 = nullptr ∨ serializer.returns.2 = 0 →
      step s (.sendAsync serializer) =
        some { s with trace := s.trace ++ [Effect.serializer_call serializer] }) ∧
    (serializer.returns.1 ≠ nullptr ∧ serializer.returns.2 ≠ 0 →
      step s (.sendAsync serializer) =
        some { s with
          posted := s.posted ++ [(serializer, serializer.returns)],
          trace := s.trace ++ [Effect.serializer_call serializer,
            Effect.post_on_send (serializer, serializer.returns)] }) := by
  constructor
  · intro h
    have h' : nullptr = serializer.returns.1 ∨ 0 = serializer.returns.2 := by
      rcases h with h | h
      · exact Or.inl h.symm
      · exact Or.inr h.symm
    simp [step, SessionClient.sendAsync, h', SessionClient.emit]
  · intro h
    have h' : ¬ (nullptr = serializer.returns.1 ∨ 0 = serializer.returns.2) := by
      rintro (h1 | h1)
      · exact h.1 h1.symm
      · exact h.2 h1.symm
    simp [step, SessionClient.sendAsync, h', SessionClient.emit, SessionClient.post_on_send]

/-- C3 at a concrete session: a null pointer is dropped, a 3-byte message is posted. -/
theorem c3_empty_message_drop_witness :
    step demoBusy (.sendAsync msgNull) =
        some { demoBusy with trace := demoBusy.trace ++ [Effect.serializer_call msgNull] } ∧
      step demoBusy (.sendAsync msgA) =
        some { demoBusy with
          posted := demoBusy.posted ++ [(msgA, msgA.returns)],
          trace := demoBusy.trace ++ [Effect.serializer_call msgA,
            Effect.post_on_send (msgA, msgA.returns)] } :=
  ⟨(c3_empty_message_drop demoBusy msgNull).1 (Or.inl rfl),
    (c3_empty_message_drop demoBusy msgA).2 ⟨by decide, by decide⟩⟩

/-- C7: read success step.  For every state and byte count `n`, `on_read` without error
invokes `callbackRead(endpoint, start of the buffer's readable bytes, n)` once if it is set
and not at all otherwise, then clears the buffer, then issues exactly one `async_read` on the
cleared buffer, whose size is 0; it invokes neither `callbackError` nor `callbackClose` and
changes nothing else. -/
theorem c7_read_success (s : SessionClient) (n : Nat) :
    s.on_read 0 n =
      { s with
        buffer_ := s.buffer_.consume s.buffer_.size
        reading := s.reading + 1
        trace := s.trace
          ++ (if s.callbacks.callbackRead then
                [Effect.callbackRead s.endpoint s.buffer_.data.1 n] else [])
          ++ [Effect.async_read (s.buffer_.consume s.buffer_.size)] } ∧
    (s.buffer_.consume s.buffer_.size).size = 0 ∧
    errorCallbacks (s.on_read 0 n).trace = errorCallbacks s.trace ∧
    closeCallbacks (s.on_read 0 n).trace = closeCallbacks s.trace ∧
    readsIssued (s.on_read 0 n).trace = readsIssued s.trace + 1 := by
  have hsize : (s.buffer_.consume s.buffer_.size).size = 0 := by
    simp [flat_buffer.consume, flat_buffer.size]
  by_cases hcb : s.callbacks.callbackRead <;>
    simp [SessionClient.on_read, hcb, SessionClient.async_read, SessionClient.emit, hsize,
      errorCallbacks, closeCallbacks, readsIssued]

/-- C10: `on_write` never removes from an empty queue.  In every state reached from a fresh
session by any sequence of events, if a write is outstanding then `queue_` is non-empty, the
one outstanding write carries the pair stored in `queue_.front()`, and a successful write
completion is defined and removes exactly that head entry. -/
theorem c10_on_write_has_head (s0 s : SessionClient) (evs : List Event) (h0 : Fresh s0)
    (h : exec s0 evs = some s) (hw : s.writing ≠ []) :
    ∃ head rest, s.queue_ = head :: rest ∧ s.writing = [head.2] ∧
      ∀ n, ∃ s', step s (.writeDone 0 n) = some s' ∧ s'.queue_ = rest := by
  rcases WInv_exec (WInv_of_Fresh h0) h with hs | ⟨a, as, hq, hwr⟩
  · exact absurd hs hw
  · refine ⟨a, as, hq, hwr, ?_⟩
    intro n
    cases as with
    | nil =>
      refine ⟨{ s with writing := [], queue_ := [] }, ?_, rfl⟩
      simp only [step, hwr]
      exact on_write_last { s with writing := [] } n a hq
    | cons a2 as2 =>
      refine ⟨{ s with queue_ := a2 :: as2, writing := [a2.2],
                       trace := s.trace ++ [Effect.async_write a2.2.1 a2.2.2] }, ?_, rfl⟩
      simp only [step, hwr]
      exact on_write_next { s with writing := [] } n a a2 as2 hq

/-- C10 at a concrete session: with two entries queued, the outstanding write is the head's. -/
theorem c10_on_write_has_head_witness :
    Fresh demoStart ∧ exec demoStart twoSends = some demoBusy ∧ demoBusy.writing ≠ [] ∧
      ∃ head rest, demoBusy.queue_ = head :: rest ∧ demoBusy.writing = [head.2] ∧
        ∀ n, ∃ s', step demoBusy (.writeDone 0 n) = some s' ∧ s'.queue_ = rest :=
  ⟨demoStart_fresh, demoBusy_exec, by decide,
    c10_on_write_has_head demoStart demoBusy twoSends demoStart_fresh demoBusy_exec
      (by decide)⟩

theorem started_chainOps (a : String) (p : Nat) (c : Callbacks) : chainOps (started a p c) = 1 :=
  rfl

theorem started_fresh (a : String) (p : Nat) (c : Callbacks) : Fresh (started a p c) :=
  ⟨rfl, rfl⟩

/-- A started session keeps its write path consistent and has at most one operation of the
startup and read chain outstanding. -/
theorem Reachable_inv {s : SessionClient} (h : Reachable s) : WInv s ∧ chainOps s ≤ 1 := by
  obtain ⟨a, p, c, evs, he⟩ := h
  have hW0 := WInv_of_Fresh (started_fresh a p c)
  refine ⟨WInv_exec hW0 he, ?_⟩
  have := (budget_exec hW0 he).1
  rw [started_chainOps] at this
  omega

/-- An error completion of the startup and read chain from a reachable state leaves no
operation of that chain outstanding. -/
theorem chain_error_kills {s s1 : SessionClient} {ev : Event} (hs : Reachable s)
    (hst : step s ev = some s1) (herr : ev.isChainError = true) : chainOps s1 = 0 := by
  have hc : ev.isChain = true := by
    cases ev <;> simp_all [Event.isChain, Event.isChainError]
  obtain ⟨t, _, _, _, _, _, h1, _⟩ := step_chain hst hc
  have := (Reachable_inv hs).2
  simp only [herr, if_true] at h1
  omega

theorem demoOpenBusy_reachable : Reachable demoOpenBusy :=
  ⟨demoHost, 8080, demoCallbacks, openAndWriting, rfl⟩

theorem demoConnecting_reachable : Reachable demoConnecting :=
  ⟨demoHost, 8080, demoCallbacks, [.resolveDone 0 [⟨1, 80⟩]], rfl⟩

/-- C4 as stated fails: with a read outstanding and a write in flight at the same time, both
completing with an error, `on_error` runs twice and `callbackError` and `callbackClose` are
invoked twice each. -/
theorem c4_counterexample :
    exec demoStart openAndWriting = some demoOpenBusy ∧
      demoOpenBusy.reading = 1 ∧ demoOpenBusy.writing = [(4096, 3)] ∧
      (exec demoOpenBusy [.readDone 104 0, .writeDone 104 0]).map
          (fun s => callbacksInvoked s.trace)
        = some [Effect.callbackError ⟨1, 80⟩ 104, Effect.callbackClose ⟨1, 80⟩ 104,
            Effect.callbackError ⟨1, 80⟩ 104, Effect.callbackClose ⟨1, 80⟩ 104] ∧
      (exec demoOpenBusy [.readDone 104 0, .writeDone 104 0]).map
          (fun s => (errorCallbacks s.trace, closeCallbacks s.trace)) = some (2, 2) := by
  refine ⟨rfl, rfl, rfl, ?_, ?_⟩ <;> decide

/-- C4, amended: over every event sequence of a started client session, `on_error` runs at
most once for the startup and read chain (at most one of its completions carries an error)
and at most once for the write chain (at most one write completion carries an error); each
run invokes `callbackError` and `callbackClose` at most once, so each of the two is invoked
at most twice in the whole life of the session. -/
theorem c4_terminal_callbacks_bounded (serverAddress : String) (serverPort : Nat)
    (callbacks : Callbacks) (evs : List Event) (s : SessionClient)
    (h : exec (started serverAddress serverPort callbacks) evs = some s) :
    chainErrors evs ≤ 1 ∧ writeErrors evs ≤ 1 ∧
      errorCallbacks s.trace ≤ chainErrors evs + writeErrors evs ∧
      closeCallbacks s.trace ≤ chainErrors evs + writeErrors evs ∧
      errorCallbacks s.trace ≤ 2 ∧ closeCallbacks s.trace ≤ 2 := by
  obtain ⟨b1, b2, b3, b4⟩ :=
    budget_exec (WInv_of_Fresh (started_fresh serverAddress serverPort callbacks)) h
  have hc : chainOps (started serverAddress serverPort callbacks) = 1 := rfl
  have hw : writeAlive (started serverAddress serverPort callbacks) = 1 := rfl
  have he : errorCallbacks (started serverAddress serverPort callbacks).trace = 0 := rfl
  have hcl : closeCallbacks (started serverAddress serverPort callbacks).trace = 0 := rfl
  rw [hc] at b1
  rw [hw] at b2
  rw [he] at b3
  rw [hcl] at b4
  refine ⟨by omega, by omega, by omega, by omega, by omega, by omega⟩

/-- C4, amended, at a concrete session: one read error and one write error. -/
theorem c4_terminal_callbacks_bounded_witness :
    exec (started demoHost 8080 demoCallbacks) bothFail = some demoBothFailed ∧
      chainErrors bothFail ≤ 1 ∧ writeErrors bothFail ≤ 1 ∧
      errorCallbacks demoBothFailed.trace ≤ chainErrors bothFail + writeErrors bothFail ∧
      closeCallbacks demoBothFailed.trace ≤ chainErrors bothFail + writeErrors bothFail ∧
      errorCallbacks demoBothFailed.trace ≤ 2 ∧ closeCallbacks demoBothFailed.trace ≤ 2 :=
  ⟨rfl, c4_terminal_callbacks_bounded demoHost 8080 demoCallbacks bothFail demoBothFailed rfl⟩

theorem write_error_step_frame {s s1 : SessionClient} {ev : Event} (hs : WInv s)
    (hst : step s ev = some s1) (herr : ev.isWriteError = true) :
    startupIssued s1.trace = startupIssued s.trace ∧
      readsIssued s1.trace = readsIssued s.trace ∧
      writesIssued s1.trace = writesIssued s.trace ∧ WriteStopped s1 := by
  cases ev with
  | writeDone ec n =>
    have hec : ec ≠ 0 := by simpa [Event.isWriteError] using herr
    obtain ⟨rfl, hstop⟩ := write_error_stops hs hec hst
    obtain ⟨e1, e2, e3, _⟩ := errorEffects_counts { s with writing := [] } ec
    refine ⟨?_, ?_, ?_, hstop⟩
    · rw [on_error_eq_effects]
      simp [e3]
    · rw [on_error_eq_effects]
      simp [e2]
    · rw [on_error_writes]
  | _ => simp [Event.isWriteError] at herr

/-- C5 as stated fails twice.  A write error while a read is outstanding runs `on_error`, and
the read that then completes without error reissues an `async_read`.  A read error on an idle
session runs `on_error`, and a later `sendAsync` with a non-empty message on the empty
`queue_` issues an `async_write`. -/
theorem c5_counterexample :
    (exec demoStart openAndWriting = some demoOpenBusy ∧
      step demoOpenBusy (.writeDone 32 0) = some demoWriteFailed ∧
      callbacksInvoked demoWriteFailed.trace
        = [Effect.callbackError ⟨1, 80⟩ 32, Effect.callbackClose ⟨1, 80⟩ 32] ∧
      demoWriteFailed.reading = 1 ∧ readsIssued demoWriteFailed.trace = 1 ∧
      (step demoWriteFailed (.readDone 0 16)).map (fun s => readsIssued s.trace) = some 2) ∧
    (exec demoStart (openUp ++ [.readDone 104 0]) = some demoIdleReadFailed ∧
      callbacksInvoked demoIdleReadFailed.trace
        = [Effect.callbackError ⟨1, 80⟩ 104, Effect.callbackClose ⟨1, 80⟩ 104] ∧
      demoIdleReadFailed.queue_ = [] ∧ writesIssued demoIdleReadFailed.trace = [] ∧
      (exec demoIdleReadFailed [.sendAsync msgA, .runPosted]).map
          (fun s => writesIssued s.trace) = some [(4096, 3)]) := by
  refine ⟨⟨rfl, rfl, ?_, rfl, ?_, ?_⟩, ⟨rfl, ?_, rfl, ?_, ?_⟩⟩ <;> decide

/-- C5, amended: an error ends the chain it occurred in.  From a reachable state of a started
client session, the step in which `on_error` runs issues no asynchronous operation.  After an
error of the startup and read chain (resolve, connect, handshake or read), no `async_resolve`,
`async_connect`, `async_handshake` or `async_read` is issued by any later sequence of events.
After a write error, no `async_write` is issued by any later sequence of events. -/
theorem c5_error_ends_its_chain (s s1 : SessionClient) (ev : Event) (hs : Reachable s)
    (hst : step s ev = some s1) :
    (ev.isChainError = true ∨ ev.isWriteError = true →
      startupIssued s1.trace = startupIssued s.trace ∧
      readsIssued s1.trace = readsIssued s.trace ∧
      writesIssued s1.trace = writesIssued s.trace) ∧
    (ev.isChainError = true → ∀ evs s2, exec s1 evs = some s2 →
      startupIssued s2.trace = startupIssued s1.trace ∧
      readsIssued s2.trace = readsIssued s1.trace) ∧
    (ev.isWriteError = true → ∀ evs s2, exec s1 evs = some s2 →
      writesIssued s2.trace = writesIssued s1.trace) := by
  obtain ⟨hW, _⟩ := Reachable_inv hs
  refine ⟨?_, ?_, ?_⟩
  · rintro (herr | herr)
    · have hc : ev.isChain = true := by
        cases ev <;> simp_all [Event.isChain, Event.isChainError]
      obtain ⟨t, ht, _, _, _, _, _, h1, _, _, h2⟩ := step_chain hst hc
      obtain ⟨h3, h4, _⟩ := h2 herr
      simp [ht, h1, h3, h4]
    · obtain ⟨h1, h2, h3, _⟩ := write_error_step_frame hW hst herr
      exact ⟨h1, h2, h3⟩
  · intro herr evs s2 he
    obtain ⟨_, h1, h2, _⟩ := chain_dead_exec (chain_error_kills hs hst herr) he
    exact ⟨h1, h2⟩
  · intro herr evs s2 he
    obtain ⟨_, _, _, hstop⟩ := write_error_step_frame hW hst herr
    exact (write_stopped_exec hstop he).2.1

/-- C5, amended, at a concrete session: the read of an open session fails. -/
theorem c5_error_ends_its_chain_witness :
    Reachable demoOpenBusy ∧ step demoOpenBusy (.readDone 104 0) = some demoReadFailed ∧
      (∀ evs s2, exec demoReadFailed evs = some s2 →
        startupIssued s2.trace = startupIssued demoReadFailed.trace ∧
        readsIssued s2.trace = readsIssued demoReadFailed.trace) :=
  ⟨demoOpenBusy_reachable, rfl,
    (c5_error_ends_its_chain demoOpenBusy demoReadFailed (.readDone 104 0)
      demoOpenBusy_reachable rfl).2.1 rfl⟩

/-- C6 as stated fails: on a session with the default callback table `Callbacks()`, a write
completion with an error invokes neither `onError` nor `onClose`. -/
theorem c6_counterexample :
    Reachable bareOpenBusy ∧ bareOpenBusy.writing = [(4096, 3)] ∧
      (step bareOpenBusy (.writeDone 32 0)).map (fun s => callbacksInvoked s.trace) = some [] :=
  ⟨⟨demoHost, 8080, {}, openAndWriting, rfl⟩, rfl, by decide⟩

/-- C6, amended: a write error abandons the outbound queue.  When a write completion with an
error code `ec` is delivered in a state reached from a fresh session, `on_write` invokes
`callbackError(endpoint, ec)` if it is set and then `callbackClose(endpoint, ec)` if it is set,
removes nothing from `queue_` (which is non-empty) and issues no `async_write`; and from that
state on no sequence of events ever issues an `async_write`: no write is outstanding again and
each later entry is appended behind the failed head. -/
theorem c6_write_error_abandons_queue (s0 s s1 : SessionClient) (evs0 : List Event)
    (ec : error_code) (n : Nat) (h0 : Fresh s0) (h : exec s0 evs0 = some s) (hec : ec ≠ 0)
    (hst : step s (.writeDone ec n) = some s1) :
    s1.trace = s.trace
        ++ (if s.callbacks.callbackError then [Effect.callbackError s.endpoint ec] else [])
        ++ (if s.callbacks.callbackClose then [Effect.callbackClose s.endpoint ec] else []) ∧
      s1.queue_ = s.queue_ ∧ s1.queue_ ≠ [] ∧ s1.writing = [] ∧
      writesIssued s1.trace = writesIssued s.trace ∧
      ∀ evs s2, exec s1 evs = some s2 →
        writesIssued s2.trace = writesIssued s1.trace ∧ s2.writing = [] ∧
        ∃ later, s2.queue_ = s1.queue_ ++ later := by
  have hW : WInv s := WInv_exec (WInv_of_Fresh h0) h
  obtain ⟨rfl, hstop⟩ := write_error_stops hW hec hst
  refine ⟨by rw [on_error_eq], by rw [on_error_queue], hstop.2, hstop.1,
    by rw [on_error_writes], ?_⟩
  intro evs s2 he
  obtain ⟨a1, a2, a3⟩ := write_stopped_exec hstop he
  exact ⟨a2, a1.1, a3⟩

/-- C6, amended, at a concrete session: the write in flight fails with error 32. -/
theorem c6_write_error_abandons_queue_witness :
    Fresh demoStart ∧ exec demoStart openAndWriting = some demoOpenBusy ∧ (32 : error_code) ≠ 0 ∧
      step demoOpenBusy (.writeDone 32 0) = some demoWriteFailed ∧
      demoWriteFailed.queue_ = demoOpenBusy.queue_ ∧ demoWriteFailed.queue_ ≠ [] ∧
      demoWriteFailed.writing = [] ∧
      ∀ evs s2, exec demoWriteFailed evs = some s2 →
        writesIssued s2.trace = writesIssued demoWriteFailed.trace ∧ s2.writing = [] ∧
        ∃ later, s2.queue_ = demoWriteFailed.queue_ ++ later :=
  have key := c6_write_error_abandons_queue demoStart demoOpenBusy demoWriteFailed
    openAndWriting 32 0 demoStart_fresh rfl (by decide) rfl
  ⟨demoStart_fresh, rfl, by decide, rfl, key.2.1, key.2.2.1, key.2.2.2.1, key.2.2.2.2.2⟩

/-- C8 as stated fails: on a session with the default callback table `Callbacks()`, a read
completion with an error invokes neither `onError` nor `onClose`. -/
theorem c8_counterexample :
    Reachable bareOpen ∧ bareOpen.reading = 1 ∧
      (step bareOpen (.readDone 104 0)).map (fun s => callbacksInvoked s.trace) = some [] :=
  ⟨⟨demoHost, 8080, {}, openUp, rfl⟩, rfl, by decide⟩

/-- C8, amended: a read error ends the read loop.  Every `on_read` call with an error code
`ec` invokes `callbackError(endpoint, ec)` if it is set and then `callbackClose(endpoint, ec)`
if it is set, and does nothing else: no `callbackRead`, the buffer untouched, no `async_read`.
When that completion is delivered in a reachable state of a started client session, no
`async_read` is ever issued and no `callbackRead` is ever invoked afterwards, whatever events
follow. -/
theorem c8_read_error_ends_read_loop (s s1 : SessionClient) (ec : error_code) (n : Nat)
    (hs : Reachable s) (hec : ec ≠ 0) (hst : step s (.readDone ec n) = some s1) :
    (∀ t : SessionClient, t.on_read ec n =
      { t with trace := t.trace
          ++ (if t.callbacks.callbackError then [Effect.callbackError t.endpoint ec] else [])
          ++ (if t.callbacks.callbackClose then [Effect.callbackClose t.endpoint ec] else []) }) ∧
    readsIssued s1.trace = readsIssued s.trace ∧
    readCallbacks s1.trace = readCallbacks s.trace ∧
    ∀ evs s2, exec s1 evs = some s2 →
      readsIssued s2.trace = readsIssued s1.trace ∧
      readCallbacks s2.trace = readCallbacks s1.trace := by
  have herr : (Event.readDone ec n).isChainError = true := by
    simpa [Event.isChainError] using hec
  obtain ⟨t, ht, _, _, _, _, _, _, _, _, h2⟩ := step_chain hst rfl
  obtain ⟨_, h4, h5⟩ := h2 herr
  refine ⟨?_, by simp [ht, h4], by simp [ht, h5], ?_⟩
  · intro t
    simp only [SessionClient.on_read, hec, ne_eq, not_false_eq_true, if_true]
    exact on_error_eq t ec
  · intro evs s2 he
    obtain ⟨_, _, a2, a3, _⟩ := chain_dead_exec (chain_error_kills hs hst herr) he
    exact ⟨a2, a3⟩

/-- C8, amended, at a concrete session: the read of an open session fails with error 104. -/
theorem c8_read_error_ends_read_loop_witness :
    Reachable demoOpenBusy ∧ (104 : error_code) ≠ 0 ∧
      step demoOpenBusy (.readDone 104 0) = some demoReadFailed ∧
      readsIssued demoReadFailed.trace = readsIssued demoOpenBusy.trace ∧
      ∀ evs s2, exec demoReadFailed evs = some s2 →
        readsIssued s2.trace = readsIssued demoReadFailed.trace ∧
        readCallbacks s2.trace = readCallbacks demoReadFailed.trace :=
  have key := c8_read_error_ends_read_loop demoOpenBusy demoReadFailed 104 0
    demoOpenBusy_reachable (by decide) rfl
  ⟨demoOpenBusy_reachable, by decide, rfl, key.2.1, key.2.2.2⟩

/-- C9 as stated fails twice.  On a session with the default callback table `Callbacks()` a
connect error invokes neither `onError` nor `onClose`.  On a session with the callbacks set,
after a connect error has invoked both, a `sendAsync` with a non-empty message issues a write,
and when that write completes with an error both callbacks are invoked again: `onClose` fires
twice.  The same happens when the write was issued before the connect error. -/
theorem c9_counterexample :
    (Reachable bareConnecting ∧ bareConnecting.connecting = 1 ∧
      (step bareConnecting (.connectDone 111 ⟨0, 0⟩)).map (fun s => callbacksInvoked s.trace)
        = some []) ∧
    (exec demoStart [.resolveDone 0 [⟨1, 80⟩]] = some demoConnecting ∧
      step demoConnecting (.connectDone 111 ⟨0, 0⟩) = some demoConnectFailed ∧
      callbacksInvoked demoConnectFailed.trace
        = [Effect.callbackError ⟨0, 0⟩ 111, Effect.callbackClose ⟨0, 0⟩ 111] ∧
      (exec demoConnectFailed [.sendAsync msgA, .runPosted, .writeDone 32 0]).map
          (fun s => callbacksInvoked s.trace)
        = some [Effect.callbackError ⟨0, 0⟩ 111, Effect.callbackClose ⟨0, 0⟩ 111,
            Effect.callbackError ⟨0, 0⟩ 32, Effect.callbackClose ⟨0, 0⟩ 32]) ∧
    (exec demoStart [.sendAsync msgA, .runPosted, .resolveDone 0 [⟨1, 80⟩],
          .connectDone 111 ⟨0, 0⟩, .writeDone 32 0]).map (fun s => callbacksInvoked s.trace)
      = some [Effect.callbackError ⟨0, 0⟩ 111, Effect.callbackClose ⟨0, 0⟩ 111,
          Effect.callbackError ⟨0, 0⟩ 32, Effect.callbackClose ⟨0, 0⟩ 32] := by
  refine ⟨⟨⟨demoHost, 8080, {}, [.resolveDone 0 [⟨1, 80⟩]], rfl⟩, rfl, ?_⟩,
    ⟨rfl, rfl, ?_, ?_⟩, ?_⟩ <;> decide

/-- C9, amended: a startup failure stops the chain.  `on_error(ec)` invokes
`callbackError(endpoint, ec)` if it is set and then `callbackClose(endpoint, ec)` if it is set,
each at most once.  Called with an error code, `on_resolve`, `on_connect` (after it stored the
endpoint) and `on_handshake` do exactly that and issue no next step.  Called without error,
each issues exactly the next step (connect, handshake, first read) and invokes no callback.
After a startup error in a reachable state of a started client session, whatever events
follow, no startup step and no read is ever issued and `callbackRead` is never invoked; no
callback at all is invoked as long as no write completion carries an error; at most one write
completion carries an error (whether that write was issued before or after the startup error),
and `callbackError` and `callbackClose` are invoked at most once more each, and only by it. -/
theorem c9_startup_failure_stops_chain :
    (∀ (t : SessionClient) (ec : error_code), t.on_error ec =
      { t with trace := t.trace
          ++ (if t.callbacks.callbackError then [Effect.callbackError t.endpoint ec] else [])
          ++ (if t.callbacks.callbackClose then [Effect.callbackClose t.endpoint ec] else []) }) ∧
    (∀ (t : SessionClient) (ec : error_code) (results : List endpointT), ec ≠ 0 →
      t.on_resolve ec results = t.on_error ec) ∧
    (∀ (t : SessionClient) (ec : error_code) (ep : endpointT), ec ≠ 0 →
      t.on_connect ec ep = SessionClient.on_error { t with endpoint := ep } ec) ∧
    (∀ (t : SessionClient) (ec : error_code), ec ≠ 0 → t.on_handshake ec = t.on_error ec) ∧
    (∀ (t : SessionClient) (results : List endpointT), t.on_resolve 0 results =
      { t with connecting := t.connecting + 1
               trace := t.trace ++ [Effect.expires_after 30, Effect.async_connect results] }) ∧
    (∀ (t : SessionClient) (ep : endpointT), t.on_connect 0 ep =
      { t with endpoint := ep
               handshaking := t.handshaking + 1
               trace := t.trace ++ [Effect.expires_never,
                 Effect.set_option_timeout_suggested_client, Effect.set_option_decorator,
                 Effect.async_handshake (t.serverAddress ++ (":" ++ toString ep.port)) "/"] }) ∧
    (∀ t : SessionClient, t.on_handshake 0 =
      { t with reading := t.reading + 1
               trace := t.trace ++ [Effect.async_read t.buffer_] }) ∧
    (∀ (s s1 : SessionClient) (ev : Event), Reachable s → step s ev = some s1 →
      ev.isStartupError = true → ∀ evs s2, exec s1 evs = some s2 →
        startupIssued s2.trace = startupIssued s1.trace ∧
        readsIssued s2.trace = readsIssued s1.trace ∧
        readCallbacks s2.trace = readCallbacks s1.trace ∧
        (writeErrors evs = 0 → callbacksInvoked s2.trace = callbacksInvoked s1.trace) ∧
        writeErrors evs ≤ 1 ∧
        errorCallbacks s2.trace ≤ errorCallbacks s1.trace + writeErrors evs ∧
        closeCallbacks s2.trace ≤ closeCallbacks s1.trace + writeErrors evs) := by
  refine ⟨on_error_eq, ?_, ?_, ?_, ?_, ?_, ?_, ?_⟩
  · intro t ec results hec
    simp [SessionClient.on_resolve, hec]
  · intro t ec ep hec
    simp [SessionClient.on_connect, hec]
  · intro t ec hec
    simp [SessionClient.on_handshake, hec]
  · intro t results
    simp [SessionClient.on_resolve, SessionClient.async_connect, SessionClient.emit]
  · intro t ep
    simp [SessionClient.on_connect, SessionClient.async_handshake, SessionClient.emit]
  · intro t
    simp [SessionClient.on_handshake, SessionClient.async_read, SessionClient.emit]
  · intro s s1 ev hs hst herr evs s2 he
    have herr' : ev.isChainError = true := by
      cases ev <;> simp_all [Event.isStartupError, Event.isChainError]
    have hdead := chain_error_kills hs hst herr'
    obtain ⟨_, a1, a2, a3, a4⟩ := chain_dead_exec hdead he
    obtain ⟨b1, b2, b3, b4⟩ := budget_exec (WInv_step (Reachable_inv hs).1 hst) he
    have hle := writeAlive_le_one s1
    refine ⟨a1, a2, a3, a4, by omega, by omega, by omega⟩

/-- C9, amended, at a concrete session: the connect of a started session fails with 111. -/
theorem c9_startup_failure_stops_chain_witness :
    Reachable demoConnecting ∧
      step demoConnecting (.connectDone 111 ⟨0, 0⟩) = some demoConnectFailed ∧
      demoConnecting.on_connect 111 ⟨0, 0⟩
        = SessionClient.on_error { demoConnecting with endpoint := ⟨0, 0⟩ } 111 ∧
      ∀ evs s2, exec demoConnectFailed evs = some s2 →
        startupIssued s2.trace = startupIssued demoConnectFailed.trace ∧
        readsIssued s2.trace = readsIssued demoConnectFailed.trace ∧
        readCallbacks s2.trace = readCallbacks demoConnectFailed.trace ∧
        (writeErrors evs = 0 →
          callbacksInvoked s2.trace = callbacksInvoked demoConnectFailed.trace) ∧
        writeErrors evs ≤ 1 ∧
        errorCallbacks s2.trace ≤ errorCallbacks demoConnectFailed.trace + writeErrors evs ∧
        closeCallbacks s2.trace ≤ closeCallbacks demoConnectFailed.trace + writeErrors evs :=
  ⟨demoConnecting_reachable, rfl,
    c9_startup_failure_stops_chain.2.2.1 demoConnecting 111 ⟨0, 0⟩ (by decide),
    c9_startup_failure_stops_chain.2.2.2.2.2.2.2 demoConnecting demoConnectFailed
      (.connectDone 111 ⟨0, 0⟩) demoConnecting_reachable rfl rfl⟩
